import Mathlib

/-! The global partial registry of `raymond` (`partial.go`)

A shallow embedding of `partial.go` and theorems about it.

* Go pointers are `Option` addresses: `none` is `nil`, `some a` points to the
  object allocated at address `a`.
* `*Partial` objects live in a heap (`World.heap`): address `a` is the `a`-th
  object allocated by `NewPartial`; objects are never freed.
* The package-level variables `partials`, `ResolvePartial` and `partialsMutex`
  are the fields of `World`.
* `World.events` is a ghost log of the calls that leave this file (`Parse`,
  `ResolvePartial`), each call to the resolver with the state of
  `partialsMutex` at the moment of the call.
* A Go call either returns, panics (after its deferred calls have run), or
  waits on `partialsMutex`: `Result`.
-/

namespace Raymond

/-- A heap address. -/
abbrev Addr := Nat

/-- Go `*Template`: `none` is `nil`. The `Template` type itself is declared
outside `partial.go`; only the identity of the pointer matters here. -/
abbrev TemplatePtr := Option Nat

/-- Go `error`: `none` is `nil`, `some msg` an error value with message `msg`. -/
abbrev GoError := Option String

/-- Go `type Partial struct { Name string; Source string; Tpl *Template }`. -/
structure Partial where
  Name : String
  Source : String
  Tpl : TemplatePtr
  deriving DecidableEq, Repr

/-- Go `*Partial`: `none` is `nil`. -/
abbrev PartialPtr := Option Addr

/-- The state of a `sync.RWMutex`: `writer` says that a writer holds the mutex
or waits for it in `Lock()` (Go admits no new reader in either case), `readers`
counts the readers that hold it. -/
structure RWMutex where
  writer : Bool
  readers : Nat
  deriving DecidableEq, Repr

/-- A call that leaves `partial.go`. -/
inductive Event where
  /-- `ResolvePartial(view)` was called while `partialsMutex` was in state `mutex`. -/
  | resolve (view : String) (mutex : RWMutex)
  /-- `Parse(source)` was called. -/
  | parse (source : String)
  deriving DecidableEq, Repr

/-- The package-level state of `partial.go`, the heap of `Partial` objects and
the ghost log of outgoing calls. -/
structure World where
  /-- Go `var partials map[string]*Partial`. -/
  partials : Finmap (fun _ : String => PartialPtr)
  /-- Go `var ResolvePartial func(view string) *Partial`. -/
  ResolvePartial : String → PartialPtr
  /-- Go `var partialsMutex sync.RWMutex`. -/
  partialsMutex : RWMutex
  /-- The allocated `Partial` objects, by address. -/
  heap : List Partial
  /-- Ghost log of the calls to `Parse` and `ResolvePartial`, oldest first. -/
  events : List Event

/-- The outcome of a Go call. -/
inductive Result (α : Type) where
  /-- The call returned `val`, leaving the world `world`. -/
  | ret (val : α) (world : World)
  /-- The call panicked with `msg`; `world` is the state after the deferred calls ran. -/
  | panicked (msg : String) (world : World)
  /-- The calling goroutine waits on `partialsMutex`. -/
  | blocked

/-- The zero value of `sync.RWMutex`: held by nobody. -/
def RWMutex.zero : RWMutex := ⟨false, 0⟩

/-- Go `partialsMutex.Lock()`: acquires the mutex for writing when nobody holds
it, and waits (`none`) otherwise. -/
def Lock (w : World) : Option World :=
  if w.partialsMutex.writer = false ∧ w.partialsMutex.readers = 0 then
    some { w with partialsMutex := { w.partialsMutex with writer := true } }
  else none

/-- Go `partialsMutex.Unlock()`. -/
def Unlock (w : World) : World :=
  { w with partialsMutex := { w.partialsMutex with writer := false } }

/-- Go `partialsMutex.RLock()`: acquires the mutex for reading when no writer
holds it or waits for it, and waits (`none`) otherwise. -/
def RLock (w : World) : Option World :=
  if w.partialsMutex.writer = false then
    some { w with partialsMutex := { w.partialsMutex with readers := w.partialsMutex.readers + 1 } }
  else none

/-- Go `partialsMutex.RUnlock()`. -/
def RUnlock (w : World) : World :=
  { w with partialsMutex := { w.partialsMutex with readers := w.partialsMutex.readers - 1 } }

/-- The initial value of `ResolvePartial`:
`func(view string) *Partial { return nil }`. -/
def defaultResolvePartial : String → PartialPtr := fun _ => none

/-- The state after package initialisation: `init()` has run
(`partials = make(map[string]*Partial)`), `ResolvePartial` has its initial
value, the mutex is the zero mutex, nothing is allocated. -/
def init : World :=
  { partials := ∅
    ResolvePartial := defaultResolvePartial
    partialsMutex := RWMutex.zero
    heap := []
    events := [] }

/-- Go index expression `partials[name]`: the stored pointer, or the zero
value `nil` when the key is absent. -/
def World.index (w : World) (name : String) : PartialPtr :=
  (w.partials.lookup name).getD none

/-- Go `NewPartial(name, source, tpl)`: allocates a `Partial` and returns its
address (never `nil`). -/
def NewPartial (w : World) (name source : String) (tpl : TemplatePtr) : PartialPtr × World :=
  (some w.heap.length, { w with heap := w.heap ++ [{ Name := name, Source := source, Tpl := tpl }] })

/-- The value of `fmt.Errorf("Partial already registered: %s", name)`. -/
def alreadyRegistered (name : String) : String :=
  "Partial already registered: " ++ name

/-- Go `RegisterPartial(name, source)`. -/
def RegisterPartial (w : World) (name source : String) : Result Unit :=
  match Lock w with
  | none => .blocked
  | some w1 =>
    if w1.index name ≠ none then
      .panicked (alreadyRegistered name) (Unlock w1)
    else
      let (p, w2) := NewPartial w1 name source none
      .ret () (Unlock { w2 with partials := w2.partials.insert name p })

/-- Go `RegisterPartials(partials)`. The argument lists the entries of the Go
map in the order in which `range` visits them. A panic of `RegisterPartial`
leaves the loop. -/
def RegisterPartials (w : World) : List (String × String) → Result Unit
  | [] => .ret () w
  | (name, p) :: rest =>
    match RegisterPartial w name p with
    | .ret _ w1 => RegisterPartials w1 rest
    | .panicked msg w1 => .panicked msg w1
    | .blocked => .blocked

/-- Go `RegisterPartialTemplate(name, tpl)`. -/
def RegisterPartialTemplate (w : World) (name : String) (tpl : TemplatePtr) : Result Unit :=
  match Lock w with
  | none => .blocked
  | some w1 =>
    if w1.index name ≠ none then
      .panicked (alreadyRegistered name) (Unlock w1)
    else
      let (p, w2) := NewPartial w1 name "" tpl
      .ret () (Unlock { w2 with partials := w2.partials.insert name p })

/-- Go `RemovePartial(name)`. -/
def RemovePartial (w : World) (name : String) : Result Unit :=
  match Lock w with
  | none => .blocked
  | some w1 => .ret () (Unlock { w1 with partials := w1.partials.erase name })

/-- Go `RemoveAllPartials()`. -/
def RemoveAllPartials (w : World) : Result Unit :=
  match Lock w with
  | none => .blocked
  | some w1 => .ret () (Unlock { w1 with partials := ∅ })

/-- Go `findPartial(name)`. The deferred `RUnlock` runs after the operand of
`return` has been evaluated, so `ResolvePartial(name)` is called with the read
lock still held; the logged event records the mutex at that moment. -/
def findPartial (w : World) (name : String) : Result PartialPtr :=
  match RLock w with
  | none => .blocked
  | some w1 =>
    match w1.partials.lookup name with
    | some found => .ret found (RUnlock w1)
    | none =>
      let w2 := { w1 with events := w1.events ++ [Event.resolve name w1.partialsMutex] }
      .ret (w2.ResolvePartial name) (RUnlock w2)

/-- The message of Go's run-time panic on a `nil` dereference. -/
def nilDereference : String :=
  "runtime error: invalid memory address or nil pointer dereference"

/-- Go `(p *Partial).template()`, with the package function `Parse` (declared
outside `partial.go`) as a parameter returning Go's `(*Template, error)` pair.
The assignment `p.Tpl, err = Parse(p.Source)` stores the first component in
the object before `err` is tested. -/
def template (Parse : String → TemplatePtr × GoError) (w : World) (p : PartialPtr) :
    Result (TemplatePtr × GoError) :=
  match p with
  | none => .panicked nilDereference w
  | some a =>
    match w.heap[a]? with
    | none => .panicked nilDereference w
    | some obj =>
      if obj.Tpl = none then
        let r := Parse obj.Source
        let w1 := { w with
          events := w.events ++ [Event.parse obj.Source]
          heap := w.heap.set a { obj with Tpl := r.1 } }
        if r.2 ≠ none then
          .ret (none, r.2) w1
        else
          -- `return p.Tpl, nil` reads the field just written
          .ret (r.1, none) w1
      else
        .ret (obj.Tpl, none) w

/-- A call into the registry: the exported functions of `partial.go`, the
lookup `findPartial` and the materialisation `template` used by the renderer. -/
inductive Call where
  | RegisterPartial (name source : String)
  | RegisterPartials (entries : List (String × String))
  | RegisterPartialTemplate (name : String) (tpl : TemplatePtr)
  | RemovePartial (name : String)
  | RemoveAllPartials
  | findPartial (name : String)
  | template (p : PartialPtr)
  deriving DecidableEq, Repr

/-- The world a call leaves behind, whether it returned or panicked (and the
caller recovered); `none` when the call waits on the mutex. -/
def Result.after {α : Type} : Result α → Option World
  | .ret _ w => some w
  | .panicked _ w => some w
  | .blocked => none

/-- Runs one call. -/
def Call.run (Parse : String → TemplatePtr × GoError) (w : World) : Call → Option World
  | .RegisterPartial name source => (Raymond.RegisterPartial w name source).after
  | .RegisterPartials entries => (Raymond.RegisterPartials w entries).after
  | .RegisterPartialTemplate name tpl => (Raymond.RegisterPartialTemplate w name tpl).after
  | .RemovePartial name => (Raymond.RemovePartial w name).after
  | .RemoveAllPartials => (Raymond.RemoveAllPartials w).after
  | .findPartial name => (Raymond.findPartial w name).after
  | .template p => (Raymond.template Parse w p).after

/-- Runs a sequence of calls one after the other, starting in `w`. -/
def runCalls (Parse : String → TemplatePtr × GoError) (w : World) : List Call → Option World
  | [] => some w
  | c :: cs =>
    match c.run Parse w with
    | some w1 => runCalls Parse w1 cs
    | none => none

/-- The number of calls to `Parse` recorded in the log. -/
def World.parseCalls (w : World) : Nat :=
  w.events.countP fun e => match e with
    | .parse _ => true
    | .resolve _ _ => false

/-- Calls `p.template()` `n` times in a row and returns the result of every
call, first call first; stops at a call that does not return. -/
def templateTimes (Parse : String → TemplatePtr × GoError) (p : PartialPtr) :
    Nat → World → List (TemplatePtr × GoError) × Option World
  | 0, w => ([], some w)
  | n + 1, w =>
    match template Parse w p with
    | .ret r w1 => ((templateTimes Parse p n w1).1.cons r, (templateTimes Parse p n w1).2)
    | .panicked _ _ => ([], none)
    | .blocked => ([], none)

/-! ## Concrete states and invariants -/

/-- The world after `RegisterPartial("x", "a")` in the initial state. -/
def worldX : World :=
  { init with
    partials := (∅ : Finmap (fun _ : String => PartialPtr)).insert "x" (some 0)
    heap := [{ Name := "x", Source := "a", Tpl := none }] }

/-- The world after `RegisterPartialTemplate("x", nil)` in the initial state. -/
def worldNil : World :=
  { init with
    partials := (∅ : Finmap (fun _ : String => PartialPtr)).insert "x" (some 0)
    heap := [{ Name := "x", Source := "", Tpl := none }] }

/-- A compiler that accepts every source and returns the template at address `7`. -/
def parseSeven : String → TemplatePtr × GoError := fun _ => (some 7, none)

/-- The world after `RegisterPartialTemplate("x", tpl)` in the initial state,
`tpl` being the template at address `5`. -/
def worldTpl : World :=
  { init with
    partials := (∅ : Finmap (fun _ : String => PartialPtr)).insert "x" (some 0)
    heap := [{ Name := "x", Source := "", Tpl := some 5 }] }

/-- The state between two calls: nobody holds the mutex, and every key of the
map holds the address of an allocated `Partial` whose `Name` is the key. -/
def World.WellFormed (w : World) : Prop :=
  w.partialsMutex = RWMutex.zero ∧
  ∀ k p, w.partials.lookup k = some p →
    ∃ a obj, p = some a ∧ w.heap[a]? = some obj ∧ obj.Name = k

/-- The world after `RegisterPartial("x", "a")` and `RegisterPartial("y", "b")`
in the initial state. -/
def worldXY : World :=
  { init with
    partials := ((∅ : Finmap (fun _ : String => PartialPtr)).insert "x" (some 0)).insert
      "y" (some 1)
    heap := [{ Name := "x", Source := "a", Tpl := none }, { Name := "y", Source := "b", Tpl := none }] }

/-- The `Partial` stored under `name`, read through the stored pointer: `none`
when `name` is no key of the map, `some none` when the key holds `nil`. -/
def World.entry (w : World) (name : String) : Option (Option Partial) :=
  (w.partials.lookup name).map fun p => p.bind fun a => w.heap[a]?

/-- The initial world while one goroutine holds the read lock. -/
def worldReading : World :=
  { init with partialsMutex := ⟨false, 1⟩ }

/-- The world after `template()` on `"x"`, `RegisterPartial("y", "b")`,
`RemovePartial("x")`, `RemoveAllPartials()` and `findPartial("x")`, in this
order, starting in `worldTpl`. -/
def worldTplLater : World :=
  { init with
    heap := [{ Name := "x", Source := "", Tpl := some 5 }, { Name := "y", Source := "b", Tpl := none }]
    events := [Event.resolve "x" ⟨false, 1⟩] }

/-- The world after `template()` with `parseSeven` on the `Partial` registered
as `"x"` in `worldX`. -/
def worldXCompiled : World :=
  { worldX with
    heap := [{ Name := "x", Source := "a", Tpl := some 7 }]
    events := [Event.parse "a"] }

/-- The world after `RemovePartial("x")` in `worldXCompiled`. -/
def worldXRemoved : World :=
  { worldXCompiled with
    partials := ((∅ : Finmap (fun _ : String => PartialPtr)).insert "x" (some 0)).erase "x" }

/-! ## How the operations act when nobody holds the mutex -/

theorem RegisterPartial_unlocked (w : World) (name source : String)
    (hm : w.partialsMutex = RWMutex.zero) :
    RegisterPartial w name source =
      if w.index name ≠ none then .panicked (alreadyRegistered name) w
      else .ret () { w with
        partials := w.partials.insert name (some w.heap.length)
        heap := w.heap ++ [{ Name := name, Source := source, Tpl := none }] } := by
  obtain ⟨ps, r, ⟨wr, rd⟩, hp, ev⟩ := w
  simp only [RWMutex.zero, RWMutex.mk.injEq] at hm
  obtain ⟨rfl, rfl⟩ := hm
  simp [RegisterPartial, Lock, Unlock, NewPartial, World.index]

theorem RegisterPartialTemplate_unlocked (w : World) (name : String) (tpl : TemplatePtr)
    (hm : w.partialsMutex = RWMutex.zero) :
    RegisterPartialTemplate w name tpl =
      if w.index name ≠ none then .panicked (alreadyRegistered name) w
      else .ret () { w with
        partials := w.partials.insert name (some w.heap.length)
        heap := w.heap ++ [{ Name := name, Source := "", Tpl := tpl }] } := by
  obtain ⟨ps, r, ⟨wr, rd⟩, hp, ev⟩ := w
  simp only [RWMutex.zero, RWMutex.mk.injEq] at hm
  obtain ⟨rfl, rfl⟩ := hm
  simp [RegisterPartialTemplate, Lock, Unlock, NewPartial, World.index]

theorem RemovePartial_unlocked (w : World) (name : String)
    (hm : w.partialsMutex = RWMutex.zero) :
    RemovePartial w name = .ret () { w with partials := w.partials.erase name } := by
  obtain ⟨ps, r, ⟨wr, rd⟩, hp, ev⟩ := w
  simp only [RWMutex.zero, RWMutex.mk.injEq] at hm
  obtain ⟨rfl, rfl⟩ := hm
  simp [RemovePartial, Lock, Unlock]

theorem RemoveAllPartials_unlocked (w : World)
    (hm : w.partialsMutex = RWMutex.zero) :
    RemoveAllPartials w = .ret () { w with partials := ∅ } := by
  obtain ⟨ps, r, ⟨wr, rd⟩, hp, ev⟩ := w
  simp only [RWMutex.zero, RWMutex.mk.injEq] at hm
  obtain ⟨rfl, rfl⟩ := hm
  simp [RemoveAllPartials, Lock, Unlock]

theorem findPartial_no_writer (w : World) (name : String)
    (hm : w.partialsMutex.writer = false) :
    findPartial w name =
      match w.partials.lookup name with
      | some found => .ret found w
      | none => .ret (w.ResolvePartial name)
          { w with events := w.events ++
              [Event.resolve name ⟨false, w.partialsMutex.readers + 1⟩] } := by
  obtain ⟨ps, r, ⟨wr, rd⟩, hp, ev⟩ := w
  simp only at hm
  subst hm
  simp only [findPartial, RLock, RUnlock]
  cases h : Finmap.lookup name ps <;> simp [h]

theorem findPartial_of_lookup (w : World) (name : String) (p : PartialPtr)
    (hm : w.partialsMutex.writer = false) (h : w.partials.lookup name = some p) :
    findPartial w name = .ret p w := by
  rw [findPartial_no_writer w name hm, h]

theorem findPartial_of_lookup_none (w : World) (name : String)
    (hm : w.partialsMutex.writer = false) (h : w.partials.lookup name = none) :
    findPartial w name = .ret (w.ResolvePartial name)
      { w with events := w.events ++
          [Event.resolve name ⟨false, w.partialsMutex.readers + 1⟩] } := by
  rw [findPartial_no_writer w name hm, h]

theorem writer_of_zero (w : World) (hm : w.partialsMutex = RWMutex.zero) :
    w.partialsMutex.writer = false := by
  rw [hm]; rfl

theorem readers_of_zero (w : World) (hm : w.partialsMutex = RWMutex.zero) :
    w.partialsMutex.readers = 0 := by
  rw [hm]; rfl

/-- `Lock` waits when somebody holds the mutex. -/
theorem Lock_of_held (w : World) (h : w.partialsMutex ≠ RWMutex.zero) : Lock w = none := by
  obtain ⟨ps, r, ⟨wr, rd⟩, hp, ev⟩ := w
  simp only [RWMutex.zero, ne_eq, RWMutex.mk.injEq] at h
  simp only [Lock]
  rw [if_neg (by simpa using h)]

theorem RegisterPartial_ret (w w1 : World) (name source : String)
    (h : RegisterPartial w name source = .ret () w1) :
    w.partialsMutex = RWMutex.zero ∧ w.index name = none ∧
      w1 = { w with
        partials := w.partials.insert name (some w.heap.length)
        heap := w.heap ++ [{ Name := name, Source := source, Tpl := none }] } := by
  by_cases hm : w.partialsMutex = RWMutex.zero
  · rw [RegisterPartial_unlocked w name source hm] at h
    by_cases hi : w.index name = none
    · rw [if_neg (by simp [hi])] at h
      exact ⟨hm, hi, by injection h with _ h2; exact h2.symm⟩
    · rw [if_pos hi] at h
      cases h
  · simp [RegisterPartial, Lock_of_held w hm] at h

theorem RegisterPartialTemplate_ret (w w1 : World) (name : String) (tpl : TemplatePtr)
    (h : RegisterPartialTemplate w name tpl = .ret () w1) :
    w.partialsMutex = RWMutex.zero ∧ w.index name = none ∧
      w1 = { w with
        partials := w.partials.insert name (some w.heap.length)
        heap := w.heap ++ [{ Name := name, Source := "", Tpl := tpl }] } := by
  by_cases hm : w.partialsMutex = RWMutex.zero
  · rw [RegisterPartialTemplate_unlocked w name tpl hm] at h
    by_cases hi : w.index name = none
    · rw [if_neg (by simp [hi])] at h
      exact ⟨hm, hi, by injection h with _ h2; exact h2.symm⟩
    · rw [if_pos hi] at h
      cases h
  · simp [RegisterPartialTemplate, Lock_of_held w hm] at h

theorem index_of_lookup (w : World) (name : String) (p : PartialPtr)
    (h : w.partials.lookup name = some p) : w.index name = p := by
  simp [World.index, h]

theorem index_of_lookup_none (w : World) (name : String)
    (h : w.partials.lookup name = none) : w.index name = none := by
  simp [World.index, h]

/-- Allocation appends to the heap: the objects allocated before are unchanged. -/
theorem getElem?_append_of_some (h : List Partial) (x : Partial) (b : Addr) (q : Partial)
    (hb : h[b]? = some q) : (h ++ [x])[b]? = some q := by
  have hlt : b < h.length := by
    by_contra hge
    rw [List.getElem?_eq_none (Nat.le_of_not_lt hge)] at hb
    cases hb
  simpa [List.getElem?_append_left hlt] using hb

/-! ## Registration -/

/-- C1. If `RegisterPartial(name, s1)` returns, an immediately following
`RegisterPartial(name, s2)` panics with "Partial already registered: name" and
leaves the world exactly as the first call left it; `findPartial(name)` still
returns the `Partial` whose source is `s1`. -/
theorem register_twice_fails (w w1 : World) (name s1 s2 : String)
    (h : RegisterPartial w name s1 = .ret () w1) :
    RegisterPartial w1 name s2 = .panicked ("Partial already registered: " ++ name) w1 ∧
    ∃ a, findPartial w1 name = .ret (some a) w1 ∧
      w1.heap[a]? = some { Name := name, Source := s1, Tpl := none } := by
  obtain ⟨hm, -, rfl⟩ := RegisterPartial_ret w w1 name s1 h
  refine ⟨?_, w.heap.length, ?_, ?_⟩
  · rw [RegisterPartial_unlocked
      { w with
        partials := w.partials.insert name (some w.heap.length)
        heap := w.heap ++ [{ Name := name, Source := s1, Tpl := none }] } name s2 hm, if_pos]
    · rfl
    · simp [World.index]
  · exact findPartial_of_lookup _ name _ (writer_of_zero w hm) (by simp)
  · simp

/-- Witness of C1: `"x"` registered twice on the initial state. -/
theorem register_twice_fails_witness :
    RegisterPartial init "x" "a" = .ret () worldX ∧
    RegisterPartial worldX "x" "b" = .panicked ("Partial already registered: " ++ "x") worldX ∧
    ∃ a, findPartial worldX "x" = .ret (some a) worldX ∧
      worldX.heap[a]? = some { Name := "x", Source := "a", Tpl := none } :=
  ⟨rfl, register_twice_fails init worldX "x" "a" "b" rfl⟩

/-- C2. When `name` is not registered and nobody holds the mutex,
`RegisterPartial(name, source)` returns; afterwards `findPartial(name)` returns
the address of a `Partial` with `Name = name`, `Source = source` and `Tpl = nil`,
whatever the resolver is and without calling it (the world, log included, is
unchanged by the lookup); every other name has the entry it had, and every
`Partial` allocated before is unchanged. -/
theorem register_fresh (w : World) (name source : String)
    (hm : w.partialsMutex = RWMutex.zero) (hn : w.partials.lookup name = none) :
    ∃ w1 a, RegisterPartial w name source = .ret () w1 ∧
      findPartial w1 name = .ret (some a) w1 ∧
      (∀ r, findPartial { w1 with ResolvePartial := r } name =
              .ret (some a) { w1 with ResolvePartial := r }) ∧
      w1.heap[a]? = some { Name := name, Source := source, Tpl := none } ∧
      (∀ n, n ≠ name → w1.partials.lookup n = w.partials.lookup n) ∧
      (∀ (b : Addr) (q : Partial), w.heap[b]? = some q → w1.heap[b]? = some q) := by
  refine ⟨{ w with
      partials := w.partials.insert name (some w.heap.length)
      heap := w.heap ++ [{ Name := name, Source := source, Tpl := none }] },
    w.heap.length, ?_, ?_, ?_, ?_, ?_, ?_⟩
  · rw [RegisterPartial_unlocked w name source hm,
      if_neg (by simp [index_of_lookup_none w name hn])]
  · exact findPartial_of_lookup _ name _ (writer_of_zero w hm) (by simp)
  · intro r
    exact findPartial_of_lookup _ name _ (writer_of_zero w hm) (by simp)
  · simp
  · intro n hne
    simp [Finmap.lookup_insert_of_ne _ hne]
  · intro b q hb
    exact getElem?_append_of_some w.heap _ b q hb

/-- Witness of C2: the scenario `"header"` on the initial state. -/
theorem register_fresh_witness :
    init.partialsMutex = RWMutex.zero ∧ init.partials.lookup "header" = none ∧
    ∃ w1 a, RegisterPartial init "header" "<h1>\x7b\x7btitle\x7d\x7d</h1>" = .ret () w1 ∧
      findPartial w1 "header" = .ret (some a) w1 ∧
      (∀ r, findPartial { w1 with ResolvePartial := r } "header" =
              .ret (some a) { w1 with ResolvePartial := r }) ∧
      w1.heap[a]? =
        some { Name := "header", Source := "<h1>\x7b\x7btitle\x7d\x7d</h1>", Tpl := none } ∧
      (∀ n, n ≠ "header" → w1.partials.lookup n = init.partials.lookup n) ∧
      (∀ (b : Addr) (q : Partial), init.heap[b]? = some q → w1.heap[b]? = some q) :=
  ⟨rfl, rfl, register_fresh init "header" "<h1>\x7b\x7btitle\x7d\x7d</h1>" rfl rfl⟩

/-- C3. `RegisterPartialTemplate` and `RegisterPartial` share one namespace and
one duplicate-name contract. With nobody holding the mutex:
(1) when `name` is registered, both `RegisterPartialTemplate(name, tpl)` and
`RegisterPartial(name, source)` panic with "Partial already registered: name"
and leave the world unchanged;
(2) when `name` is not registered, `RegisterPartialTemplate(name, tpl)` returns
and stores under `name` a `Partial` with `Name = name`, `Source = ""` and
`Tpl = tpl`, leaving the other names and the `Partial`s allocated before
unchanged;
(3), (4) a returning `RegisterPartial(name, s)` or
`RegisterPartialTemplate(name, t)`, for any `t` (`nil` included), leaves `name`
registered and the mutex free, so that (1) applies afterwards. -/
theorem registerCompiled_contract (w : World) (name source : String) (tpl : TemplatePtr)
    (hm : w.partialsMutex = RWMutex.zero) :
    ((∃ a, w.partials.lookup name = some (some a)) →
      RegisterPartialTemplate w name tpl =
        .panicked ("Partial already registered: " ++ name) w ∧
      RegisterPartial w name source =
        .panicked ("Partial already registered: " ++ name) w) ∧
    (w.partials.lookup name = none →
      ∃ w1 a, RegisterPartialTemplate w name tpl = .ret () w1 ∧
        w1.partials.lookup name = some (some a) ∧
        findPartial w1 name = .ret (some a) w1 ∧
        w1.heap[a]? = some { Name := name, Source := "", Tpl := tpl } ∧
        (∀ n, n ≠ name → w1.partials.lookup n = w.partials.lookup n) ∧
        (∀ (b : Addr) (q : Partial), w.heap[b]? = some q → w1.heap[b]? = some q)) ∧
    (∀ w1 s, RegisterPartial w name s = .ret () w1 →
      w1.partialsMutex = RWMutex.zero ∧ ∃ a, w1.partials.lookup name = some (some a)) ∧
    (∀ w1 t, RegisterPartialTemplate w name t = .ret () w1 →
      w1.partialsMutex = RWMutex.zero ∧ ∃ a, w1.partials.lookup name = some (some a)) := by
  refine ⟨?_, ?_, ?_, ?_⟩
  · rintro ⟨a, ha⟩
    have hi : w.index name ≠ none := by simp [index_of_lookup w name _ ha]
    constructor
    · rw [RegisterPartialTemplate_unlocked w name tpl hm, if_pos hi]; rfl
    · rw [RegisterPartial_unlocked w name source hm, if_pos hi]; rfl
  · intro hn
    refine ⟨{ w with
        partials := w.partials.insert name (some w.heap.length)
        heap := w.heap ++ [{ Name := name, Source := "", Tpl := tpl }] },
      w.heap.length, ?_, ?_, ?_, ?_, ?_, ?_⟩
    · rw [RegisterPartialTemplate_unlocked w name tpl hm,
        if_neg (by simp [index_of_lookup_none w name hn])]
    · simp
    · exact findPartial_of_lookup _ name _ (writer_of_zero w hm) (by simp)
    · simp
    · intro n hne
      simp [Finmap.lookup_insert_of_ne _ hne]
    · intro b q hb
      exact getElem?_append_of_some w.heap _ b q hb
  · intro w1 s h
    obtain ⟨-, -, rfl⟩ := RegisterPartial_ret w w1 name s h
    exact ⟨hm, w.heap.length, by simp⟩
  · intro w1 t h
    obtain ⟨-, -, rfl⟩ := RegisterPartialTemplate_ret w w1 name t h
    exact ⟨hm, w.heap.length, by simp⟩

/-- Witness of C3: in the world where `"x"` is registered, registering `"x"`
again fails either way; in the initial world `RegisterPartialTemplate("x", nil)`
returns and leaves `"x"` registered. -/
theorem registerCompiled_contract_witness :
    worldX.partialsMutex = RWMutex.zero ∧
    (∃ a, worldX.partials.lookup "x" = some (some a)) ∧
    (RegisterPartialTemplate worldX "x" (some 5) =
        .panicked ("Partial already registered: " ++ "x") worldX ∧
      RegisterPartial worldX "x" "b" =
        .panicked ("Partial already registered: " ++ "x") worldX) ∧
    worldX.partials.lookup "y" = none ∧
    (∃ w1 a, RegisterPartialTemplate worldX "y" (some 5) = .ret () w1 ∧
        w1.partials.lookup "y" = some (some a) ∧
        findPartial w1 "y" = .ret (some a) w1 ∧
        w1.heap[a]? = some { Name := "y", Source := "", Tpl := some 5 } ∧
        (∀ n, n ≠ "y" → w1.partials.lookup n = worldX.partials.lookup n) ∧
        (∀ (b : Addr) (q : Partial), worldX.heap[b]? = some q → w1.heap[b]? = some q)) :=
  ⟨rfl, ⟨0, by decide⟩,
    (registerCompiled_contract worldX "x" "b" (some 5) rfl).1 ⟨0, by decide⟩,
    by decide,
    (registerCompiled_contract worldX "y" "b" (some 5) rfl).2.1 (by decide)⟩

/-! ## Lookup -/

/-- C4. With no writer holding the mutex, `findPartial(name)` returns the
stored pointer when `name` is a key of the map, whatever the resolver is, and
leaves the world unchanged; otherwise it returns exactly `ResolvePartial(name)`
and changes nothing but the log, which gains the resolver call: the map is the
map before the call, so the resolver's `Partial` is not inserted, and a second
lookup calls the resolver again. -/
theorem lookup_contract (w : World) (name : String) (hm : w.partialsMutex.writer = false) :
    (∀ p, w.partials.lookup name = some p →
      ∀ r, findPartial { w with ResolvePartial := r } name =
        .ret p { w with ResolvePartial := r }) ∧
    (w.partials.lookup name = none →
      ∃ w1 w2, findPartial w name = .ret (w.ResolvePartial name) w1 ∧
        w1.partials = w.partials ∧ w1.ResolvePartial = w.ResolvePartial ∧
        w1.partialsMutex = w.partialsMutex ∧ w1.heap = w.heap ∧
        w1.events = w.events ++ [Event.resolve name ⟨false, w.partialsMutex.readers + 1⟩] ∧
        w1.partials.lookup name = none ∧
        findPartial w1 name = .ret (w.ResolvePartial name) w2 ∧
        w2.partials = w.partials ∧
        w2.events = w1.events ++ [Event.resolve name ⟨false, w.partialsMutex.readers + 1⟩]) := by
  constructor
  · intro p hp r
    exact findPartial_of_lookup _ name p hm hp
  · intro hn
    refine ⟨_, _, findPartial_of_lookup_none w name hm hn, rfl, rfl, rfl, rfl, rfl, hn,
      findPartial_of_lookup_none _ name hm hn, rfl, rfl⟩

/-- Witness of C4: in the world where only `"x"` is registered, with a
resolver that answers every name with the `Partial` at address `0`. -/
theorem lookup_contract_witness :
    worldX.partialsMutex.writer = false ∧
    worldX.partials.lookup "x" = some (some 0) ∧
    (∀ r, findPartial { worldX with ResolvePartial := r } "x" =
        .ret (some 0) { worldX with ResolvePartial := r }) ∧
    worldX.partials.lookup "dyn" = none ∧
    (∃ w1 w2, findPartial { worldX with ResolvePartial := fun _ => some 0 } "dyn" =
          .ret (some 0) w1 ∧
        w1.partials = worldX.partials ∧ w1.ResolvePartial = (fun _ => some 0) ∧
        w1.partialsMutex = worldX.partialsMutex ∧ w1.heap = worldX.heap ∧
        w1.events = worldX.events ++ [Event.resolve "dyn" ⟨false, 0 + 1⟩] ∧
        w1.partials.lookup "dyn" = none ∧
        findPartial w1 "dyn" = .ret (some 0) w2 ∧
        w2.partials = worldX.partials ∧
        w2.events = w1.events ++ [Event.resolve "dyn" ⟨false, 0 + 1⟩]) :=
  ⟨rfl, by decide,
    (lookup_contract worldX "x" rfl).1 (some 0) (by decide),
    by decide,
    (lookup_contract { worldX with ResolvePartial := fun _ => some 0 } "dyn" rfl).2 (by decide)⟩

/-! ## Reachable states -/

theorem wellFormed_init : init.WellFormed :=
  ⟨rfl, fun k p h => by simp [init] at h⟩

/-- Storing a freshly allocated `Partial` named `name` under `name` keeps the
state well formed. -/
theorem wellFormed_store (w : World) (name source : String) (tpl : TemplatePtr)
    (hw : w.WellFormed) :
    World.WellFormed { w with
      partials := w.partials.insert name (some w.heap.length)
      heap := w.heap ++ [{ Name := name, Source := source, Tpl := tpl }] } := by
  refine ⟨hw.1, ?_⟩
  intro k p hk
  by_cases hkn : k = name
  · subst hkn
    simp only [Finmap.lookup_insert, Option.some.injEq] at hk
    exact ⟨w.heap.length, ⟨k, source, tpl⟩, hk.symm, by simp, rfl⟩
  · simp only [Finmap.lookup_insert_of_ne _ hkn] at hk
    obtain ⟨a, obj, rfl, ha, hname⟩ := hw.2 k p hk
    exact ⟨a, obj, rfl, getElem?_append_of_some w.heap _ a obj ha, hname⟩

theorem RegisterPartial_after (w w1 : World) (name source : String)
    (h : (RegisterPartial w name source).after = some w1) (hw : w.WellFormed) :
    w1.WellFormed ∧ w1.ResolvePartial = w.ResolvePartial := by
  rw [RegisterPartial_unlocked w name source hw.1] at h
  split at h
  · simp only [Result.after, Option.some.injEq] at h
    subst h
    exact ⟨hw, rfl⟩
  · simp only [Result.after, Option.some.injEq] at h
    subst h
    exact ⟨wellFormed_store w name source none hw, rfl⟩

theorem RegisterPartialTemplate_after (w w1 : World) (name : String) (tpl : TemplatePtr)
    (h : (RegisterPartialTemplate w name tpl).after = some w1) (hw : w.WellFormed) :
    w1.WellFormed ∧ w1.ResolvePartial = w.ResolvePartial := by
  rw [RegisterPartialTemplate_unlocked w name tpl hw.1] at h
  split at h
  · simp only [Result.after, Option.some.injEq] at h
    subst h
    exact ⟨hw, rfl⟩
  · simp only [Result.after, Option.some.injEq] at h
    subst h
    exact ⟨wellFormed_store w name "" tpl hw, rfl⟩

theorem RegisterPartials_after (entries : List (String × String)) (w w1 : World)
    (h : (RegisterPartials w entries).after = some w1) (hw : w.WellFormed) :
    w1.WellFormed ∧ w1.ResolvePartial = w.ResolvePartial := by
  induction entries generalizing w with
  | nil =>
    simp only [RegisterPartials, Result.after, Option.some.injEq] at h
    subst h
    exact ⟨hw, rfl⟩
  | cons e rest ih =>
    obtain ⟨name, p⟩ := e
    simp only [RegisterPartials] at h
    cases hr : RegisterPartial w name p with
    | ret u w2 =>
      rw [hr] at h
      have h2 := RegisterPartial_after w w2 name p (by rw [hr]; rfl) hw
      have h3 := ih w2 h h2.1
      exact ⟨h3.1, h3.2.trans h2.2⟩
    | panicked msg w2 =>
      rw [hr] at h
      have h2 := RegisterPartial_after w w2 name p (by rw [hr]; rfl) hw
      simp only [Result.after, Option.some.injEq] at h
      subst h
      exact h2
    | blocked =>
      rw [hr] at h
      simp [Result.after] at h

theorem RemovePartial_after (w w1 : World) (name : String)
    (h : (RemovePartial w name).after = some w1) (hw : w.WellFormed) :
    w1.WellFormed ∧ w1.ResolvePartial = w.ResolvePartial := by
  rw [RemovePartial_unlocked w name hw.1] at h
  simp only [Result.after, Option.some.injEq] at h
  subst h
  refine ⟨⟨hw.1, ?_⟩, rfl⟩
  intro k p hk
  by_cases hkn : k = name
  · subst hkn
    simp [Finmap.lookup_erase] at hk
  · simp only [Finmap.lookup_erase_ne hkn] at hk
    exact hw.2 k p hk

theorem RemoveAllPartials_after (w w1 : World)
    (h : (RemoveAllPartials w).after = some w1) (hw : w.WellFormed) :
    w1.WellFormed ∧ w1.ResolvePartial = w.ResolvePartial := by
  rw [RemoveAllPartials_unlocked w hw.1] at h
  simp only [Result.after, Option.some.injEq] at h
  subst h
  exact ⟨⟨hw.1, fun k p hk => by simp at hk⟩, rfl⟩

theorem findPartial_after (w w1 : World) (name : String)
    (h : (findPartial w name).after = some w1) (hw : w.WellFormed) :
    w1.WellFormed ∧ w1.ResolvePartial = w.ResolvePartial := by
  rw [findPartial_no_writer w name (writer_of_zero w hw.1)] at h
  split at h
  · simp only [Result.after, Option.some.injEq] at h
    subst h
    exact ⟨hw, rfl⟩
  · simp only [Result.after, Option.some.injEq] at h
    subst h
    exact ⟨hw, rfl⟩

/-- Writing the `Tpl` field of the object at `a` keeps the state well formed. -/
theorem wellFormed_setTpl (w : World) (a : Addr) (obj : Partial) (t : TemplatePtr)
    (ev : List Event) (ha : w.heap[a]? = some obj) (hw : w.WellFormed) :
    World.WellFormed { w with events := ev, heap := w.heap.set a { obj with Tpl := t } } := by
  refine ⟨hw.1, ?_⟩
  intro k p hk
  obtain ⟨b, o, rfl, hb, hname⟩ := hw.2 k p hk
  by_cases hab : a = b
  · subst hab
    have hlt : a < w.heap.length := by
      by_contra hge
      rw [List.getElem?_eq_none (Nat.le_of_not_lt hge)] at ha
      cases ha
    rw [ha] at hb
    cases hb
    exact ⟨a, _, rfl, List.getElem?_set_self hlt, hname⟩
  · exact ⟨b, o, rfl, by simpa [List.getElem?_set_ne hab] using hb, hname⟩

/-- The three ways `template` returns on an allocated object. -/
theorem template_of_obj (Parse : String → TemplatePtr × GoError) (w : World) (a : Addr)
    (obj : Partial) (ha : w.heap[a]? = some obj) :
    template Parse w (some a) =
      if obj.Tpl = none then
        if (Parse obj.Source).2 ≠ none then
          .ret (none, (Parse obj.Source).2)
            { w with
              events := w.events ++ [Event.parse obj.Source]
              heap := w.heap.set a { obj with Tpl := (Parse obj.Source).1 } }
        else
          .ret ((Parse obj.Source).1, none)
            { w with
              events := w.events ++ [Event.parse obj.Source]
              heap := w.heap.set a { obj with Tpl := (Parse obj.Source).1 } }
      else .ret (obj.Tpl, none) w := by
  simp only [template, ha]

theorem template_after (Parse : String → TemplatePtr × GoError) (w w1 : World) (p : PartialPtr)
    (h : (template Parse w p).after = some w1) (hw : w.WellFormed) :
    w1.WellFormed ∧ w1.ResolvePartial = w.ResolvePartial := by
  cases p with
  | none =>
    simp only [template, Result.after, Option.some.injEq] at h
    subst h
    exact ⟨hw, rfl⟩
  | some a =>
    cases ha : w.heap[a]? with
    | none =>
      simp only [template, ha, Result.after, Option.some.injEq] at h
      subst h
      exact ⟨hw, rfl⟩
    | some obj =>
      rw [template_of_obj Parse w a obj ha] at h
      split at h
      · split at h <;>
        · simp only [Result.after, Option.some.injEq] at h
          subst h
          exact ⟨wellFormed_setTpl w a obj _ _ ha hw, rfl⟩
      · simp only [Result.after, Option.some.injEq] at h
        subst h
        exact ⟨hw, rfl⟩

theorem Call.run_after (Parse : String → TemplatePtr × GoError) (c : Call) (w w1 : World)
    (h : c.run Parse w = some w1) (hw : w.WellFormed) :
    w1.WellFormed ∧ w1.ResolvePartial = w.ResolvePartial := by
  cases c with
  | RegisterPartial name source => exact RegisterPartial_after w w1 name source h hw
  | RegisterPartials entries => exact RegisterPartials_after entries w w1 h hw
  | RegisterPartialTemplate name tpl => exact RegisterPartialTemplate_after w w1 name tpl h hw
  | RemovePartial name => exact RemovePartial_after w w1 name h hw
  | RemoveAllPartials => exact RemoveAllPartials_after w w1 h hw
  | findPartial name => exact findPartial_after w w1 name h hw
  | template p => exact template_after Parse w w1 p h hw

/-- Every state reached by a sequence of calls from a well-formed state is
well formed and has the resolver it started with. -/
theorem runCalls_after (Parse : String → TemplatePtr × GoError) (cs : List Call)
    (w w1 : World) (h : runCalls Parse w cs = some w1) (hw : w.WellFormed) :
    w1.WellFormed ∧ w1.ResolvePartial = w.ResolvePartial := by
  induction cs generalizing w with
  | nil =>
    simp only [runCalls, Option.some.injEq] at h
    subst h
    exact ⟨hw, rfl⟩
  | cons c cs ih =>
    simp only [runCalls] at h
    cases hc : c.run Parse w with
    | none => rw [hc] at h; cases h
    | some w2 =>
      rw [hc] at h
      have h2 := Call.run_after Parse c w w2 hc hw
      have h3 := ih w2 h h2.1
      exact ⟨h3.1, h3.2.trans h2.2⟩

/-- C5. In every state reached from the initial state by a sequence of calls
(none of which assigns `ResolvePartial`), the resolver is the default one and
`findPartial(name)` returns; it returns `nil` if and only if `name` is not a
key of the map. -/
theorem lookup_default_absent_iff (Parse : String → TemplatePtr × GoError) (cs : List Call)
    (w : World) (name : String) (h : runCalls Parse init cs = some w) :
    w.ResolvePartial = defaultResolvePartial ∧
    ∃ p w1, findPartial w name = .ret p w1 ∧
      (p = none ↔ w.partials.lookup name = none) := by
  obtain ⟨hw, hr⟩ := runCalls_after Parse cs init w h wellFormed_init
  refine ⟨hr, ?_⟩
  cases hl : w.partials.lookup name with
  | none =>
    refine ⟨_, _, findPartial_of_lookup_none w name (writer_of_zero w hw.1) hl, ?_⟩
    rw [hr]
    exact ⟨fun _ => rfl, fun _ => rfl⟩
  | some p =>
    refine ⟨p, w, findPartial_of_lookup w name p (writer_of_zero w hw.1) hl, ?_⟩
    obtain ⟨a, obj, rfl, -, -⟩ := hw.2 name p hl
    simp

/-- Witness of C5: after `RegisterPartial("x", "a")`, `"x"` is found and
`"footer"`, never registered, is absent. -/
theorem lookup_default_absent_iff_witness :
    runCalls (fun _ => (none, none)) init [Call.RegisterPartial "x" "a"] = some worldX ∧
    (worldX.ResolvePartial = defaultResolvePartial ∧
      ∃ p w1, findPartial worldX "footer" = .ret p w1 ∧
        (p = none ↔ worldX.partials.lookup "footer" = none)) :=
  ⟨rfl, lookup_default_absent_iff (fun _ => (none, none)) [Call.RegisterPartial "x" "a"]
    worldX "footer" rfl⟩

/-! ## Removal -/

/-- Erasing a key that is absent leaves the map as it is. -/
theorem erase_of_lookup_none (m : Finmap (fun _ : String => PartialPtr)) (name : String)
    (h : m.lookup name = none) : m.erase name = m := by
  apply Finmap.ext_lookup
  intro k
  by_cases hk : k = name
  · subst hk
    rw [Finmap.lookup_erase, h]
  · exact Finmap.lookup_erase_ne hk

/-- C6. With nobody holding the mutex, `RemovePartial(name)` returns; when
`name` is not registered it leaves the world (the map in particular) unchanged;
and a second `RemovePartial(name)` returns and leaves the world exactly as the
first one left it. -/
theorem remove_absent_noop_and_idempotent (w : World) (name : String)
    (hm : w.partialsMutex = RWMutex.zero) :
    (w.partials.lookup name = none → RemovePartial w name = .ret () w) ∧
    ∃ w1, RemovePartial w name = .ret () w1 ∧ RemovePartial w1 name = .ret () w1 := by
  constructor
  · intro hn
    rw [RemovePartial_unlocked w name hm, erase_of_lookup_none w.partials name hn]
  · refine ⟨{ w with partials := w.partials.erase name }, RemovePartial_unlocked w name hm, ?_⟩
    rw [RemovePartial_unlocked { w with partials := w.partials.erase name } name hm]
    simp only
    rw [erase_of_lookup_none (w.partials.erase name) name (Finmap.lookup_erase name w.partials)]

/-- Witness of C6: removing `"y"`, not registered, and removing `"x"` twice,
in the world where only `"x"` is registered. -/
theorem remove_absent_noop_and_idempotent_witness :
    worldX.partialsMutex = RWMutex.zero ∧ worldX.partials.lookup "y" = none ∧
    RemovePartial worldX "y" = .ret () worldX ∧
    ∃ w1, RemovePartial worldX "x" = .ret () w1 ∧ RemovePartial w1 "x" = .ret () w1 :=
  ⟨rfl, by decide,
    (remove_absent_noop_and_idempotent worldX "y" rfl).1 (by decide),
    (remove_absent_noop_and_idempotent worldX "x" rfl).2⟩

/-- C7. With nobody holding the mutex and `name` registered,
`RemovePartial(name)` returns; afterwards `name` is no key of the map, so
`findPartial(name)` calls the resolver and returns `ResolvePartial(name)`
(`nil` when the resolver is the default one); every other name has the entry
it had before, and the heap of `Partial` objects is unchanged. -/
theorem remove_registered (w : World) (name : String) (p : PartialPtr)
    (hm : w.partialsMutex = RWMutex.zero) (hp : w.partials.lookup name = some p) :
    findPartial w name = .ret p w ∧
    ∃ w1 w2, RemovePartial w name = .ret () w1 ∧
      w1.partials.lookup name = none ∧
      findPartial w1 name = .ret (w.ResolvePartial name) w2 ∧
      w2.events = w1.events ++ [Event.resolve name ⟨false, 1⟩] ∧
      w2.partials = w1.partials ∧
      (w.ResolvePartial = defaultResolvePartial → findPartial w1 name = .ret none w2) ∧
      (∀ n, n ≠ name → w1.partials.lookup n = w.partials.lookup n) ∧
      w1.heap = w.heap ∧ w1.ResolvePartial = w.ResolvePartial := by
  have hf := findPartial_of_lookup_none { w with partials := w.partials.erase name } name
    (writer_of_zero w hm) (Finmap.lookup_erase name w.partials)
  refine ⟨findPartial_of_lookup w name p (writer_of_zero w hm) hp,
    { w with partials := w.partials.erase name }, _, RemovePartial_unlocked w name hm,
    Finmap.lookup_erase name w.partials, hf, ?_, rfl, ?_, ?_, rfl, rfl⟩
  · simp [readers_of_zero w hm]
  · intro hd
    rw [hf]
    simp only [hd, defaultResolvePartial]
  · intro n hne
    exact Finmap.lookup_erase_ne hne

/-- Witness of C7: removing `"x"` from the world where only `"x"` is
registered. -/
theorem remove_registered_witness :
    worldX.partialsMutex = RWMutex.zero ∧ worldX.partials.lookup "x" = some (some 0) ∧
    findPartial worldX "x" = .ret (some 0) worldX ∧
    ∃ w1 w2, RemovePartial worldX "x" = .ret () w1 ∧
      w1.partials.lookup "x" = none ∧
      findPartial w1 "x" = .ret (worldX.ResolvePartial "x") w2 ∧
      w2.events = w1.events ++ [Event.resolve "x" ⟨false, 1⟩] ∧
      w2.partials = w1.partials ∧
      (worldX.ResolvePartial = defaultResolvePartial → findPartial w1 "x" = .ret none w2) ∧
      (∀ n, n ≠ "x" → w1.partials.lookup n = worldX.partials.lookup n) ∧
      w1.heap = worldX.heap ∧ w1.ResolvePartial = worldX.ResolvePartial :=
  ⟨rfl, by decide, remove_registered worldX "x" (some 0) rfl (by decide)⟩

/-- C8. With nobody holding the mutex, `RemoveAllPartials()` returns; afterwards
the map is empty, the resolver, the heap and the log are what they were, and
`findPartial(name)` calls the resolver and returns `ResolvePartial(name)`
(`nil` when the resolver is the default one) for every `name`, registered
before or not. -/
theorem clear_contract (w : World) (name : String) (hm : w.partialsMutex = RWMutex.zero) :
    ∃ w1 w2, RemoveAllPartials w = .ret () w1 ∧
      w1.partials = ∅ ∧ w1.ResolvePartial = w.ResolvePartial ∧
      w1.heap = w.heap ∧ w1.events = w.events ∧ w1.partialsMutex = w.partialsMutex ∧
      findPartial w1 name = .ret (w.ResolvePartial name) w2 ∧
      w2.events = w1.events ++ [Event.resolve name ⟨false, 1⟩] ∧
      w2.partials = ∅ ∧
      (w.ResolvePartial = defaultResolvePartial → findPartial w1 name = .ret none w2) := by
  have hf := findPartial_of_lookup_none { w with partials := ∅ } name
    (writer_of_zero w hm) (Finmap.lookup_empty name)
  refine ⟨{ w with partials := ∅ }, _, RemoveAllPartials_unlocked w hm, rfl, rfl, rfl, rfl, rfl,
    hf, ?_, rfl, ?_⟩
  · simp [readers_of_zero w hm]
  · intro hd
    rw [hf]
    simp only [hd, defaultResolvePartial]

/-- Witness of C8: clearing the world where `"x"` is registered. -/
theorem clear_contract_witness :
    worldX.partialsMutex = RWMutex.zero ∧ worldX.partials.lookup "x" = some (some 0) ∧
    ∃ w1 w2, RemoveAllPartials worldX = .ret () w1 ∧
      w1.partials = ∅ ∧ w1.ResolvePartial = worldX.ResolvePartial ∧
      w1.heap = worldX.heap ∧ w1.events = worldX.events ∧
      w1.partialsMutex = worldX.partialsMutex ∧
      findPartial w1 "x" = .ret (worldX.ResolvePartial "x") w2 ∧
      w2.events = w1.events ++ [Event.resolve "x" ⟨false, 1⟩] ∧
      w2.partials = ∅ ∧
      (worldX.ResolvePartial = defaultResolvePartial → findPartial w1 "x" = .ret none w2) :=
  ⟨rfl, by decide, clear_contract worldX "x" rfl⟩

/-! ## Materialisation -/

theorem parseCalls_append_parse (w : World) (src : String) (ev : List Event)
    (h : ev = w.events ++ [Event.parse src]) (w1 : World) (h1 : w1.events = ev) :
    w1.parseCalls = w.parseCalls + 1 := by
  simp [World.parseCalls, h1, h, List.countP_append, List.countP_singleton]

/-- On an object whose `Tpl` is set, `template` returns it and changes nothing,
however often it is called. -/
theorem templateTimes_of_set (Parse : String → TemplatePtr × GoError) (w : World) (a : Addr)
    (obj : Partial) (ha : w.heap[a]? = some obj) (hs : obj.Tpl ≠ none) (n : Nat) :
    templateTimes Parse (some a) n w = (List.replicate n (obj.Tpl, none), some w) := by
  induction n with
  | zero => rfl
  | succ n ih =>
    simp only [templateTimes, template_of_obj Parse w a obj ha, if_neg hs, ih,
      List.replicate_succ]

/-- C9. For a `Partial` whose `Tpl` is `nil` and whose source `Parse` accepts
(it returns a template `t` and a `nil` error): the first `template()` returns
`t`, which is what `Parse(p.Source)` returned, with a `nil` error, stores `t`
in `p.Tpl` and logs one call of `Parse`; a second `template()` returns `t`
again and changes nothing, the log included; and any number `n + 1` of calls
in a row return `t` every time and leave exactly one more call of `Parse` in
the log than before. -/
theorem materialize_compiles_once (Parse : String → TemplatePtr × GoError) (w : World)
    (a : Addr) (obj : Partial) (t : Nat)
    (ha : w.heap[a]? = some obj) (hu : obj.Tpl = none)
    (hp : Parse obj.Source = (some t, none)) :
    ∃ w1, template Parse w (some a) = .ret ((Parse obj.Source).1, none) w1 ∧
      (Parse obj.Source).1 = some t ∧
      w1.heap[a]? = some { obj with Tpl := some t } ∧
      w1.events = w.events ++ [Event.parse obj.Source] ∧
      w1.partials = w.partials ∧
      template Parse w1 (some a) = .ret (some t, none) w1 ∧
      ∀ n, templateTimes Parse (some a) (n + 1) w =
          (List.replicate (n + 1) (some t, none), some w1) ∧
        w1.parseCalls = w.parseCalls + 1 := by
  have hlt : a < w.heap.length := by
    by_contra hge
    rw [List.getElem?_eq_none (Nat.le_of_not_lt hge)] at ha
    cases ha
  have h1 : template Parse w (some a) = .ret (some t, none)
      { w with
        events := w.events ++ [Event.parse obj.Source]
        heap := w.heap.set a { obj with Tpl := some t } } := by
    rw [template_of_obj Parse w a obj ha, if_pos hu, hp]
    simp
  have ha1 : (w.heap.set a { obj with Tpl := some t })[a]? = some { obj with Tpl := some t } :=
    List.getElem?_set_self hlt
  have h2 := templateTimes_of_set Parse
    { w with
      events := w.events ++ [Event.parse obj.Source]
      heap := w.heap.set a { obj with Tpl := some t } } a { obj with Tpl := some t } ha1
    (by simp)
  refine ⟨{ w with
      events := w.events ++ [Event.parse obj.Source]
      heap := w.heap.set a { obj with Tpl := some t } },
    by rw [hp]; exact h1, by rw [hp], ha1, rfl, rfl, ?_, ?_⟩
  · rw [template_of_obj Parse _ a { obj with Tpl := some t } ha1, if_neg (by simp)]
  · intro n
    refine ⟨?_, parseCalls_append_parse w obj.Source _ rfl _ rfl⟩
    simp only [templateTimes, h1, h2 n, List.replicate_succ, List.cons_eq_cons]

/-- Witness of C9: the `Partial` registered as `"x"` with source `"a"`,
materialised with a compiler that accepts every source. -/
theorem materialize_compiles_once_witness :
    worldX.heap[0]? = some { Name := "x", Source := "a", Tpl := none } ∧
    parseSeven "a" = (some 7, none) ∧
    ∃ w1, template parseSeven worldX (some 0) = .ret ((parseSeven "a").1, none) w1 ∧
      (parseSeven "a").1 = some 7 ∧
      w1.heap[0]? = some { Name := "x", Source := "a", Tpl := some 7 } ∧
      w1.events = worldX.events ++ [Event.parse "a"] ∧
      w1.partials = worldX.partials ∧
      template parseSeven w1 (some 0) = .ret (some 7, none) w1 ∧
      ∀ n, templateTimes parseSeven (some 0) (n + 1) worldX =
          (List.replicate (n + 1) (some 7, none), some w1) ∧
        w1.parseCalls = worldX.parseCalls + 1 :=
  ⟨rfl, rfl, materialize_compiles_once parseSeven worldX 0
    { Name := "x", Source := "a", Tpl := none } 7 rfl rfl rfl⟩

/-- Counterexample to C10 as stated, at `tpl = nil`: after
`RegisterPartialTemplate("x", nil)` in the initial state, `findPartial("x")`
returns the stored `Partial`, and `template()` on it calls `Parse("")`, returns
what `Parse` returned instead of `nil`, and writes it into the `Partial`. -/
theorem materialize_registerCompiled_nil_counterexample :
    RegisterPartialTemplate init "x" none = .ret () worldNil ∧
    findPartial worldNil "x" = .ret (some 0) worldNil ∧
    worldNil.heap[0]? = some { Name := "x", Source := "", Tpl := none } ∧
    template parseSeven worldNil (some 0) =
      .ret (some 7, none)
        { worldNil with
          events := [Event.parse ""]
          heap := [{ Name := "x", Source := "", Tpl := some 7 }] } ∧
    template parseSeven worldNil (some 0) ≠ .ret (none, none) worldNil := by
  refine ⟨rfl, rfl, rfl, rfl, ?_⟩
  intro h
  have h2 : template parseSeven worldNil (some 0) =
      .ret (some 7, none)
        { worldNil with
          events := [Event.parse ""]
          heap := [{ Name := "x", Source := "", Tpl := some 7 }] } := rfl
  rw [h2] at h
  injection h with hv _
  cases hv

/-- C10, amended. For a template pointer `tpl` that is not `nil`: after a
returning `RegisterPartialTemplate(name, tpl)`, `findPartial(name)` returns the
stored `Partial`, whose `Tpl` is `tpl`, and `template()` on it returns `tpl`
with a `nil` error and leaves the world unchanged, whatever `Parse` is: `Parse`
is not called (the log is unchanged) and the `Partial` is unchanged. For
`tpl = nil`, `RegisterPartialTemplate(name, nil)` is `RegisterPartial(name, "")`. -/
theorem materialize_registerCompiled (Parse : String → TemplatePtr × GoError) (w w1 : World)
    (name : String) (t : Nat)
    (h : RegisterPartialTemplate w name (some t) = .ret () w1) :
    (∃ a, findPartial w1 name = .ret (some a) w1 ∧
      w1.heap[a]? = some { Name := name, Source := "", Tpl := some t } ∧
      template Parse w1 (some a) = .ret (some t, none) w1 ∧
      ∀ n, templateTimes Parse (some a) n w1 = (List.replicate n (some t, none), some w1)) ∧
    RegisterPartialTemplate w name none = RegisterPartial w name "" := by
  obtain ⟨hm, -, rfl⟩ := RegisterPartialTemplate_ret w w1 name (some t) h
  have ha : (w.heap ++ [{ Name := name, Source := "", Tpl := some t }])[w.heap.length]? =
      some { Name := name, Source := "", Tpl := some t } := by simp
  refine ⟨⟨w.heap.length, ?_, ha, ?_, ?_⟩, rfl⟩
  · exact findPartial_of_lookup _ name _ (writer_of_zero w hm) (by simp)
  · rw [template_of_obj Parse _ w.heap.length { Name := name, Source := "", Tpl := some t } ha,
      if_neg (by simp)]
  · intro n
    exact templateTimes_of_set Parse
      { w with
        partials := w.partials.insert name (some w.heap.length)
        heap := w.heap ++ [{ Name := name, Source := "", Tpl := some t }] }
      w.heap.length { Name := name, Source := "", Tpl := some t } ha (by simp) n

/-- Witness of the amended C10: `RegisterPartialTemplate("x", tpl)` with `tpl`
the template at address `5`, in the initial state. -/
theorem materialize_registerCompiled_witness :
    RegisterPartialTemplate init "x" (some 5) = .ret () worldTpl ∧
    (∃ a, findPartial worldTpl "x" = .ret (some a) worldTpl ∧
      worldTpl.heap[a]? = some { Name := "x", Source := "", Tpl := some 5 } ∧
      template parseSeven worldTpl (some a) = .ret (some 5, none) worldTpl ∧
      ∀ n, templateTimes parseSeven (some a) n worldTpl =
        (List.replicate n (some 5, none), some worldTpl)) ∧
    RegisterPartialTemplate init "x" none = RegisterPartial init "x" "" :=
  ⟨rfl, materialize_registerCompiled parseSeven init worldTpl "x" 5 rfl⟩

theorem RegisterPartial_panicked (w w1 : World) (name source msg : String)
    (h : RegisterPartial w name source = .panicked msg w1) :
    w.partialsMutex = RWMutex.zero ∧ w.index name ≠ none ∧ w1 = w ∧
      msg = alreadyRegistered name := by
  by_cases hm : w.partialsMutex = RWMutex.zero
  · rw [RegisterPartial_unlocked w name source hm] at h
    by_cases hi : w.index name = none
    · rw [if_neg (by simp [hi])] at h
      cases h
    · rw [if_pos hi] at h
      injection h with h1 h2
      exact ⟨hm, hi, h2.symm, h1.symm⟩
  · simp [RegisterPartial, Lock_of_held w hm] at h

/-- A key that holds a pointer other than `nil` makes `partials[name] != nil` true. -/
theorem lookup_ne_of_index_none (w : World) (name k : String) (a : Addr)
    (hi : w.index name = none) (hk : w.partials.lookup k = some (some a)) : k ≠ name := by
  intro hkn
  subst hkn
  simp [World.index, hk] at hi

/-- What a panicking `RegisterPartials` leaves behind. -/
theorem RegisterPartials_panicked (entries : List (String × String)) (w w1 : World)
    (msg : String) (h : RegisterPartials w entries = .panicked msg w1) :
    w1.partialsMutex = RWMutex.zero ∧
    (∃ pre name src post, entries = pre ++ (name, src) :: post ∧
      msg = alreadyRegistered name ∧ RegisterPartials w pre = .ret () w1 ∧
      w1.index name ≠ none ∧
      ∀ e ∈ pre, ∃ a, w1.partials.lookup e.1 = some (some a) ∧
        w1.heap[a]? = some { Name := e.1, Source := e.2, Tpl := none }) ∧
    (∀ k a, w.partials.lookup k = some (some a) → w1.partials.lookup k = some (some a)) ∧
    (∀ (b : Addr) (q : Partial), w.heap[b]? = some q → w1.heap[b]? = some q) := by
  induction entries generalizing w with
  | nil => simp [RegisterPartials] at h
  | cons e rest ih =>
    obtain ⟨n, s⟩ := e
    simp only [RegisterPartials] at h
    cases hr : RegisterPartial w n s with
    | blocked => rw [hr] at h; cases h
    | panicked m w2 =>
      rw [hr] at h
      injection h with hmsg hw
      subst hmsg hw
      obtain ⟨hm, hi, rfl, rfl⟩ := RegisterPartial_panicked w w2 n s m hr
      exact ⟨hm, ⟨[], n, s, rest, rfl, rfl, rfl, hi, by simp⟩, fun k a hk => hk,
        fun b q hb => hb⟩
    | ret u w2 =>
      rw [hr] at h
      obtain ⟨hm, hi, rfl⟩ := RegisterPartial_ret w w2 n s hr
      obtain ⟨hm1, ⟨pre, name, src, post, hsplit, hmsg, hpre, hidx, hall⟩, hold, hheap⟩ := ih _ h
      refine ⟨hm1, ⟨(n, s) :: pre, name, src, post, by simp [hsplit], hmsg, ?_, hidx, ?_⟩,
        ?_, ?_⟩
      · simp only [RegisterPartials, hr]
        exact hpre
      · intro e he
        rcases List.mem_cons.1 he with rfl | he
        · exact ⟨w.heap.length, hold n w.heap.length (by simp),
            hheap w.heap.length _ (by simp)⟩
        · exact hall e he
      · intro k a hk
        apply hold k a
        have hne := lookup_ne_of_index_none w n k a hi hk
        simpa [Finmap.lookup_insert_of_ne _ hne] using hk
      · intro b q hb
        exact hheap b q (getElem?_append_of_some w.heap _ b q hb)

/-- C12. `RegisterPartials` has no rollback. If the call panics, it panics with
"Partial already registered: name" at an entry `(name, src)` of the list of
entries (in the order of iteration, whatever that order is); every entry
visited before it is registered afterwards: `findPartial` returns a `Partial`
with the entry's name and source; and every `Partial` that was registered
before the call is still stored under its name and unchanged. -/
theorem registerMany_no_rollback (entries : List (String × String)) (w w1 : World)
    (msg : String) (h : RegisterPartials w entries = .panicked msg w1) :
    (∃ pre name src post, entries = pre ++ (name, src) :: post ∧
      msg = "Partial already registered: " ++ name ∧
      ∀ e ∈ pre, ∃ a, findPartial w1 e.1 = .ret (some a) w1 ∧
        w1.heap[a]? = some { Name := e.1, Source := e.2, Tpl := none }) ∧
    (∀ k a q, w.partials.lookup k = some (some a) → w.heap[a]? = some q →
      findPartial w1 k = .ret (some a) w1 ∧ w1.heap[a]? = some q) := by
  obtain ⟨hm1, ⟨pre, name, src, post, hsplit, hmsg, -, -, hall⟩, hold, hheap⟩ :=
    RegisterPartials_panicked entries w w1 msg h
  refine ⟨⟨pre, name, src, post, hsplit, hmsg, ?_⟩, ?_⟩
  · intro e he
    obtain ⟨a, hl, hobj⟩ := hall e he
    exact ⟨a, findPartial_of_lookup w1 e.1 _ (writer_of_zero w1 hm1) hl, hobj⟩
  · intro k a q hk hq
    exact ⟨findPartial_of_lookup w1 k _ (writer_of_zero w1 hm1) (hold k a hk), hheap a q hq⟩

/-- Witness of C12: in the world where `"x"` is registered, the entries `"y"`,
then `"x"`: the call panics at `"x"` and `"y"` stays registered. -/
theorem registerMany_no_rollback_witness :
    RegisterPartials worldX [("y", "b"), ("x", "c")] =
      .panicked ("Partial already registered: " ++ "x") worldXY ∧
    (∃ pre name src post, [("y", "b"), ("x", "c")] = pre ++ (name, src) :: post ∧
      "Partial already registered: " ++ "x" = "Partial already registered: " ++ name ∧
      ∀ e ∈ pre, ∃ a, findPartial worldXY e.1 = .ret (some a) worldXY ∧
        worldXY.heap[a]? = some { Name := e.1, Source := e.2, Tpl := none }) ∧
    (∀ k a q, worldX.partials.lookup k = some (some a) → worldX.heap[a]? = some q →
      findPartial worldXY k = .ret (some a) worldXY ∧ worldXY.heap[a]? = some q) :=
  ⟨rfl, registerMany_no_rollback [("y", "b"), ("x", "c")] worldX worldXY
    ("Partial already registered: " ++ "x") rfl⟩

theorem RegisterPartials_append (l1 l2 : List (String × String)) (w : World) :
    RegisterPartials w (l1 ++ l2) =
      match RegisterPartials w l1 with
      | .ret _ w1 => RegisterPartials w1 l2
      | .panicked msg w1 => .panicked msg w1
      | .blocked => .blocked := by
  induction l1 generalizing w with
  | nil => rfl
  | cons e rest ih =>
    obtain ⟨n, s⟩ := e
    simp only [List.cons_append, RegisterPartials]
    cases RegisterPartial w n s with
    | ret u w2 => exact ih w2
    | panicked m w2 => rfl
    | blocked => rfl

theorem keys_insert (m : Finmap (fun _ : String => PartialPtr)) (name : String)
    (p : PartialPtr) : (m.insert name p).keys = insert name m.keys := by
  ext k
  simp [Finmap.mem_keys, Finmap.mem_insert]

/-- Registering a list of entries whose names are distinct and not registered:
the call returns, every entry is stored with its name and source, nothing else
changes. -/
theorem RegisterPartials_fresh (l : List (String × String)) (w : World)
    (hm : w.partialsMutex = RWMutex.zero) (hnodup : (l.map Prod.fst).Nodup)
    (hfresh : ∀ e ∈ l, w.partials.lookup e.1 = none) :
    ∃ w1, RegisterPartials w l = .ret () w1 ∧
      w1.partialsMutex = RWMutex.zero ∧ w1.ResolvePartial = w.ResolvePartial ∧
      w1.events = w.events ∧
      (∀ e ∈ l, ∃ a, w1.partials.lookup e.1 = some (some a) ∧
        w1.heap[a]? = some { Name := e.1, Source := e.2, Tpl := none }) ∧
      (∀ k, k ∉ l.map Prod.fst → w1.partials.lookup k = w.partials.lookup k) ∧
      (∀ (b : Addr) (q : Partial), w.heap[b]? = some q → w1.heap[b]? = some q) ∧
      w1.partials.keys = w.partials.keys ∪ (l.map Prod.fst).toFinset := by
  induction l generalizing w with
  | nil => exact ⟨w, rfl, hm, rfl, rfl, by simp, fun k _ => rfl, fun b q hb => hb, by simp⟩
  | cons e rest ih =>
    obtain ⟨n, s⟩ := e
    simp only [List.map_cons, List.nodup_cons] at hnodup
    obtain ⟨hn, hrest⟩ := hnodup
    have hfn : w.partials.lookup n = none := hfresh (n, s) (by simp)
    have hreg : RegisterPartial w n s = .ret ()
        { w with
          partials := w.partials.insert n (some w.heap.length)
          heap := w.heap ++ [{ Name := n, Source := s, Tpl := none }] } := by
      rw [RegisterPartial_unlocked w n s hm, if_neg (by simp [index_of_lookup_none w n hfn])]
    have hne : ∀ e ∈ rest, e.1 ≠ n := by
      intro e he hen
      exact hn (hen ▸ List.mem_map_of_mem Prod.fst he)
    obtain ⟨w1, hr, hm1, hres, hev, hall, hother, hheap, hkeys⟩ :=
      ih { w with
          partials := w.partials.insert n (some w.heap.length)
          heap := w.heap ++ [{ Name := n, Source := s, Tpl := none }] } hm hrest
        (by
          intro e he
          simpa [Finmap.lookup_insert_of_ne _ (hne e he)] using hfresh e (by simp [he]))
    refine ⟨w1, by simp only [RegisterPartials, hreg]; exact hr, hm1, hres, hev, ?_, ?_, ?_, ?_⟩
    · intro e he
      rcases List.mem_cons.1 he with rfl | he
      · refine ⟨w.heap.length, ?_, hheap w.heap.length _ (by simp)⟩
        rw [hother n hn]
        simp
      · exact hall e he
    · intro k hk
      simp only [List.map_cons, List.mem_cons, not_or] at hk
      rw [hother k hk.2]
      simp [Finmap.lookup_insert_of_ne _ hk.1]
    · intro b q hb
      exact hheap b q (getElem?_append_of_some w.heap _ b q hb)
    · rw [hkeys]
      simp only [keys_insert, List.map_cons, List.toFinset_cons]
      ext k
      simp only [Finset.mem_union, Finset.mem_insert]
      tauto

/-- Counterexample to C13 as stated: in the world where `"x"` is registered and
`"y"` is not, with the entries visited in the order `"x"`, `"y"`, the call
panics at `"x"` and leaves the world as it was: `"y"` is not registered
afterwards. -/
theorem registerMany_continues_counterexample :
    worldX.partials.lookup "x" = some (some 0) ∧
    worldX.partials.lookup "y" = none ∧
    RegisterPartials worldX [("x", "c"), ("y", "b")] =
      .panicked ("Partial already registered: " ++ "x") worldX ∧
    findPartial worldX "y" =
      .ret none { worldX with events := [Event.resolve "y" ⟨false, 1⟩] } :=
  ⟨by decide, by decide, rfl, rfl⟩

/-- C13, amended. `RegisterPartials` stops at the first entry whose name is
registered. With nobody holding the mutex, when the entries `pre` visited first
have distinct names that are not registered and the next entry `(name, src)`
has a registered name: the call panics with "Partial already registered: name";
the world it leaves is the one `RegisterPartials(pre)` returns in: the entries
of `pre` are registered with their sources, and every other name, the names of
the entries `post` not yet visited included, has the entry (or absence) it had
before the call. -/
theorem registerMany_stops_at_duplicate (w : World) (pre post : List (String × String))
    (name src : String) (a : Addr)
    (hm : w.partialsMutex = RWMutex.zero) (hnodup : (pre.map Prod.fst).Nodup)
    (hfresh : ∀ e ∈ pre, w.partials.lookup e.1 = none)
    (hdup : w.partials.lookup name = some (some a)) :
    ∃ w1, RegisterPartials w (pre ++ (name, src) :: post) =
        .panicked ("Partial already registered: " ++ name) w1 ∧
      RegisterPartials w pre = .ret () w1 ∧
      (∀ e ∈ pre, ∃ b, findPartial w1 e.1 = .ret (some b) w1 ∧
        w1.heap[b]? = some { Name := e.1, Source := e.2, Tpl := none }) ∧
      (∀ k, k ∉ pre.map Prod.fst → w1.partials.lookup k = w.partials.lookup k) ∧
      (∀ e ∈ post, e.1 ∉ pre.map Prod.fst → w.partials.lookup e.1 = none →
        w1.partials.lookup e.1 = none) := by
  obtain ⟨w1, hr, hm1, -, -, hall, hother, -, -⟩ := RegisterPartials_fresh pre w hm hnodup hfresh
  have hname : name ∉ pre.map Prod.fst := by
    intro hmem
    obtain ⟨e, he, hen⟩ := List.mem_map.1 hmem
    have := hfresh e he
    rw [hen, hdup] at this
    cases this
  have hpanic : RegisterPartial w1 name src = .panicked (alreadyRegistered name) w1 := by
    rw [RegisterPartial_unlocked w1 name src hm1, if_pos]
    rw [index_of_lookup w1 name (some a) (by rw [hother name hname, hdup])]
    simp
  refine ⟨w1, ?_, hr, ?_, hother, ?_⟩
  · rw [RegisterPartials_append, hr]
    simp only [RegisterPartials, hpanic]
    rfl
  · intro e he
    obtain ⟨b, hl, hobj⟩ := hall e he
    exact ⟨b, findPartial_of_lookup w1 e.1 _ (writer_of_zero w1 hm1) hl, hobj⟩
  · intro e _ hne hfe
    rw [hother e.1 hne, hfe]

/-- Witness of the amended C13: in the world where `"x"` is registered, the
entries `"y"`, `"x"`, `"z"` in this order. -/
theorem registerMany_stops_at_duplicate_witness :
    worldX.partialsMutex = RWMutex.zero ∧
    (([("y", "b")] : List (String × String)).map Prod.fst).Nodup ∧
    (∀ e ∈ ([("y", "b")] : List (String × String)), worldX.partials.lookup e.1 = none) ∧
    worldX.partials.lookup "x" = some (some 0) ∧
    ∃ w1, RegisterPartials worldX ([("y", "b")] ++ ("x", "c") :: [("z", "d")]) =
        .panicked ("Partial already registered: " ++ "x") w1 ∧
      RegisterPartials worldX [("y", "b")] = .ret () w1 ∧
      (∀ e ∈ ([("y", "b")] : List (String × String)),
        ∃ b, findPartial w1 e.1 = .ret (some b) w1 ∧
          w1.heap[b]? = some { Name := e.1, Source := e.2, Tpl := none }) ∧
      (∀ k, k ∉ ([("y", "b")] : List (String × String)).map Prod.fst →
        w1.partials.lookup k = worldX.partials.lookup k) ∧
      (∀ e ∈ ([("z", "d")] : List (String × String)),
        e.1 ∉ ([("y", "b")] : List (String × String)).map Prod.fst →
        worldX.partials.lookup e.1 = none → w1.partials.lookup e.1 = none) :=
  ⟨rfl, by decide, by decide, by decide,
    registerMany_stops_at_duplicate worldX [("y", "b")] [("z", "d")] "x" "c" 0 rfl
      (by decide) (by decide) (by decide)⟩

/-! ## The lock around the resolver -/

/-- Every writing operation waits while a reader holds the mutex. -/
theorem writers_blocked (v : World) (n : Nat) (hv : v.partialsMutex = ⟨false, n + 1⟩) :
    (∀ name source, RegisterPartial v name source = .blocked) ∧
    (∀ name tpl, RegisterPartialTemplate v name tpl = .blocked) ∧
    (∀ name, RemovePartial v name = .blocked) ∧
    RemoveAllPartials v = .blocked := by
  have hl : Lock v = none := Lock_of_held v (by rw [hv]; simp [RWMutex.zero])
  refine ⟨?_, ?_, ?_, ?_⟩
  · intro name source
    simp [RegisterPartial, hl]
  · intro name tpl
    simp [RegisterPartialTemplate, hl]
  · intro name
    simp [RemovePartial, hl]
  · simp [RemoveAllPartials, hl]

/-- Counterexample to C14 as stated: `findPartial("dyn")` in the initial state
calls the resolver while the mutex has one reader, the caller; in a world whose
mutex is in that state `RegisterPartial` waits on the mutex. -/
theorem resolver_lock_counterexample :
    init.partials.lookup "dyn" = none ∧
    findPartial init "dyn" =
      .ret none { init with events := [Event.resolve "dyn" ⟨false, 1⟩] } ∧
    (⟨false, 1⟩ : RWMutex) ≠ RWMutex.zero ∧
    worldReading.partialsMutex = ⟨false, 1⟩ ∧
    RegisterPartial worldReading "dyn" "ok" = .blocked :=
  ⟨rfl, rfl, by decide, rfl, rfl⟩

/-- C14, amended. When no writer holds the mutex or waits for it and `name` is
not registered,
`findPartial(name)` calls the resolver while the caller holds the read lock:
the mutex at the call has no writer and one reader more than before the call
(the deferred `RUnlock` runs after the resolver has returned, and the mutex is
then what it was). In a world whose mutex is in the state of the call,
`RegisterPartial`, `RegisterPartialTemplate`, `RemovePartial` and
`RemoveAllPartials` wait on the mutex. -/
theorem resolver_called_under_read_lock (w : World) (name : String)
    (hm : w.partialsMutex.writer = false) (hn : w.partials.lookup name = none) :
    ∃ w1, findPartial w name = .ret (w.ResolvePartial name) w1 ∧
      w1.events = w.events ++ [Event.resolve name ⟨false, w.partialsMutex.readers + 1⟩] ∧
      w1.partialsMutex = w.partialsMutex ∧
      ∀ v : World, v.partialsMutex = ⟨false, w.partialsMutex.readers + 1⟩ →
        (∀ n s, RegisterPartial v n s = .blocked) ∧
        (∀ n t, RegisterPartialTemplate v n t = .blocked) ∧
        (∀ n, RemovePartial v n = .blocked) ∧
        RemoveAllPartials v = .blocked := by
  refine ⟨_, findPartial_of_lookup_none w name hm hn, rfl, rfl, ?_⟩
  intro v hv
  exact writers_blocked v w.partialsMutex.readers hv

/-- Witness of the amended C14: looking up `"dyn"` in the initial state. -/
theorem resolver_called_under_read_lock_witness :
    init.partialsMutex.writer = false ∧ init.partials.lookup "dyn" = none ∧
    ∃ w1, findPartial init "dyn" = .ret (init.ResolvePartial "dyn") w1 ∧
      w1.events = init.events ++ [Event.resolve "dyn" ⟨false, init.partialsMutex.readers + 1⟩] ∧
      w1.partialsMutex = init.partialsMutex ∧
      ∀ v : World, v.partialsMutex = ⟨false, init.partialsMutex.readers + 1⟩ →
        (∀ n s, RegisterPartial v n s = .blocked) ∧
        (∀ n t, RegisterPartialTemplate v n t = .blocked) ∧
        (∀ n, RemovePartial v n = .blocked) ∧
        RemoveAllPartials v = .blocked :=
  ⟨rfl, rfl, resolver_called_under_read_lock init "dyn" rfl rfl⟩

/-! ## Order of registration -/

/-- A returning `RegisterPartials` is the sequence of its `RegisterPartial` calls. -/
theorem runCalls_of_RegisterPartials (Parse : String → TemplatePtr × GoError)
    (l : List (String × String)) (w w1 : World) (h : RegisterPartials w l = .ret () w1) :
    runCalls Parse w (l.map fun e => Call.RegisterPartial e.1 e.2) = some w1 := by
  induction l generalizing w with
  | nil =>
    simp only [RegisterPartials] at h
    injection h with _ h
    subst h
    rfl
  | cons e rest ih =>
    obtain ⟨n, s⟩ := e
    simp only [RegisterPartials] at h
    cases hr : RegisterPartial w n s with
    | blocked => rw [hr] at h; cases h
    | panicked m w2 => rw [hr] at h; cases h
    | ret u w2 =>
      rw [hr] at h
      simp only [List.map_cons, runCalls, Call.run, hr, Result.after]
      exact ih w2 h

/-- The entries after registering distinct unregistered names in a well-formed
state. -/
theorem RegisterPartials_fresh_entry (l : List (String × String)) (w : World)
    (hw : w.WellFormed) (hnodup : (l.map Prod.fst).Nodup)
    (hfresh : ∀ e ∈ l, w.partials.lookup e.1 = none) :
    ∃ w1, RegisterPartials w l = .ret () w1 ∧
      (∀ e ∈ l, w1.entry e.1 = some (some { Name := e.1, Source := e.2, Tpl := none })) ∧
      (∀ k, k ∉ l.map Prod.fst → w1.entry k = w.entry k) ∧
      w1.partials.keys = w.partials.keys ∪ (l.map Prod.fst).toFinset := by
  obtain ⟨w1, hr, -, -, -, hall, hother, hheap, hkeys⟩ :=
    RegisterPartials_fresh l w hw.1 hnodup hfresh
  refine ⟨w1, hr, ?_, ?_, hkeys⟩
  · intro e he
    obtain ⟨a, hl, hobj⟩ := hall e he
    simp [World.entry, hl, hobj]
  · intro k hk
    simp only [World.entry, hother k hk]
    cases hl : w.partials.lookup k with
    | none => rfl
    | some p =>
      obtain ⟨a, obj, rfl, ha, -⟩ := hw.2 k p hl
      simp [ha, hheap a obj ha]

/-- Registering the same distinct unregistered entries in two orders gives the
same entries. -/
theorem RegisterPartials_perm_fresh (l1 l2 : List (String × String)) (w : World)
    (hw : w.WellFormed) (hperm : l1.Perm l2) (hnodup : (l1.map Prod.fst).Nodup)
    (hfresh : ∀ e ∈ l1, w.partials.lookup e.1 = none) :
    ∃ w1 w2, RegisterPartials w l1 = .ret () w1 ∧ RegisterPartials w l2 = .ret () w2 ∧
      (∀ k, w1.entry k = w2.entry k) ∧ w1.partials.keys = w2.partials.keys := by
  have hnodup2 : (l2.map Prod.fst).Nodup := (hperm.map Prod.fst).nodup_iff.1 hnodup
  have hfresh2 : ∀ e ∈ l2, w.partials.lookup e.1 = none :=
    fun e he => hfresh e (hperm.mem_iff.2 he)
  obtain ⟨w1, hr1, hall1, hother1, hkeys1⟩ := RegisterPartials_fresh_entry l1 w hw hnodup hfresh
  obtain ⟨w2, hr2, hall2, hother2, hkeys2⟩ :=
    RegisterPartials_fresh_entry l2 w hw hnodup2 hfresh2
  refine ⟨w1, w2, hr1, hr2, ?_, ?_⟩
  · intro k
    by_cases hk : k ∈ l1.map Prod.fst
    · obtain ⟨e, he, rfl⟩ := List.mem_map.1 hk
      rw [hall1 e he, hall2 e (hperm.mem_iff.1 he)]
    · have hk2 : k ∉ l2.map Prod.fst := fun h => hk ((hperm.map Prod.fst).mem_iff.2 h)
      rw [hother1 k hk, hother2 k hk2]
  · rw [hkeys1, hkeys2]
    ext k
    simp only [Finset.mem_union, List.mem_toFinset]
    rw [(hperm.map Prod.fst).mem_iff]

/-- C15. In a well-formed state, for entries with pairwise distinct names none
of which is registered: `RegisterPartials` returns for every order `l1`, `l2`
of the entries, and so does the sequence of the single `RegisterPartial` calls;
every name holds the same `Partial` after either order; the map has exactly as
many more keys as there are entries; each entry's name holds a `Partial` with
the entry's name and source and `Tpl = nil`; every other name holds what it
held before. -/
theorem register_distinct_any_order (Parse : String → TemplatePtr × GoError) (w : World)
    (l1 l2 : List (String × String)) (hw : w.WellFormed) (hperm : l1.Perm l2)
    (hnodup : (l1.map Prod.fst).Nodup)
    (hfresh : ∀ e ∈ l1, w.partials.lookup e.1 = none) :
    ∃ w1 w2, RegisterPartials w l1 = .ret () w1 ∧ RegisterPartials w l2 = .ret () w2 ∧
      runCalls Parse w (l1.map fun e => Call.RegisterPartial e.1 e.2) = some w1 ∧
      runCalls Parse w (l2.map fun e => Call.RegisterPartial e.1 e.2) = some w2 ∧
      (∀ k, w1.entry k = w2.entry k) ∧
      w1.partials.keys = w2.partials.keys ∧
      w1.partials.keys.card = w.partials.keys.card + l1.length ∧
      (∀ e ∈ l1, w1.entry e.1 = some (some { Name := e.1, Source := e.2, Tpl := none })) ∧
      (∀ k, k ∉ l1.map Prod.fst → w1.entry k = w.entry k) := by
  obtain ⟨w1, w2, hr1, hr2, hentry, hkeys⟩ :=
    RegisterPartials_perm_fresh l1 l2 w hw hperm hnodup hfresh
  obtain ⟨w1', hr1', hall, hother, hk1⟩ := RegisterPartials_fresh_entry l1 w hw hnodup hfresh
  rw [hr1] at hr1'
  injection hr1' with _ heq
  subst heq
  refine ⟨w1, w2, hr1, hr2, runCalls_of_RegisterPartials Parse l1 w w1 hr1,
    runCalls_of_RegisterPartials Parse l2 w w2 hr2, hentry, hkeys, ?_, hall, hother⟩
  rw [hk1, Finset.card_union_of_disjoint, List.toFinset_card_of_nodup hnodup, List.length_map]
  rw [Finset.disjoint_left]
  intro k hkw hkl
  obtain ⟨e, he, rfl⟩ := List.mem_map.1 (List.mem_toFinset.1 hkl)
  exact (Finmap.lookup_eq_none.1 (hfresh e he)) (Finmap.mem_keys.1 hkw)

/-- Witness of C15: `"x"` and `"y"` registered in both orders in the initial
state. -/
theorem register_distinct_any_order_witness :
    init.WellFormed ∧
    ([("x", "a"), ("y", "b")] : List (String × String)).Perm [("y", "b"), ("x", "a")] ∧
    (([("x", "a"), ("y", "b")] : List (String × String)).map Prod.fst).Nodup ∧
    (∀ e ∈ ([("x", "a"), ("y", "b")] : List (String × String)),
      init.partials.lookup e.1 = none) ∧
    ∃ w1 w2, RegisterPartials init [("x", "a"), ("y", "b")] = .ret () w1 ∧
      RegisterPartials init [("y", "b"), ("x", "a")] = .ret () w2 ∧
      runCalls parseSeven init
        (([("x", "a"), ("y", "b")] : List (String × String)).map
          fun e => Call.RegisterPartial e.1 e.2) = some w1 ∧
      runCalls parseSeven init
        (([("y", "b"), ("x", "a")] : List (String × String)).map
          fun e => Call.RegisterPartial e.1 e.2) = some w2 ∧
      (∀ k, w1.entry k = w2.entry k) ∧
      w1.partials.keys = w2.partials.keys ∧
      w1.partials.keys.card =
        init.partials.keys.card + ([("x", "a"), ("y", "b")] : List (String × String)).length ∧
      (∀ e ∈ ([("x", "a"), ("y", "b")] : List (String × String)),
        w1.entry e.1 = some (some { Name := e.1, Source := e.2, Tpl := none })) ∧
      (∀ k, k ∉ ([("x", "a"), ("y", "b")] : List (String × String)).map Prod.fst →
        w1.entry k = init.entry k) :=
  ⟨wellFormed_init, List.Perm.swap _ _ _, by decide, by decide,
    register_distinct_any_order parseSeven init [("x", "a"), ("y", "b")]
      [("y", "b"), ("x", "a")] wellFormed_init (List.Perm.swap _ _ _) (by decide) (by decide)⟩

theorem wellFormed_worldX : worldX.WellFormed :=
  (RegisterPartial_after init worldX "x" "a" rfl wellFormed_init).1

/-- In a well-formed state `RegisterPartials` panics when some entry's name is
registered. -/
theorem RegisterPartials_panics_of_registered (l : List (String × String)) (w : World)
    (hw : w.WellFormed) (h : ∃ e ∈ l, w.partials.lookup e.1 ≠ none) :
    ∃ msg w1, RegisterPartials w l = .panicked msg w1 := by
  induction l generalizing w with
  | nil =>
    obtain ⟨e, he, -⟩ := h
    cases he
  | cons x rest ih =>
    obtain ⟨n, s⟩ := x
    by_cases hi : w.index n = none
    · have hln : w.partials.lookup n = none := by
        cases hl : w.partials.lookup n with
        | none => rfl
        | some p =>
          obtain ⟨a, obj, rfl, -, -⟩ := hw.2 n p hl
          simp [World.index, hl] at hi
      have hreg : RegisterPartial w n s = .ret ()
          { w with
            partials := w.partials.insert n (some w.heap.length)
            heap := w.heap ++ [{ Name := n, Source := s, Tpl := none }] } := by
        rw [RegisterPartial_unlocked w n s hw.1, if_neg (by simp [hi])]
      obtain ⟨e, he, hne⟩ := h
      have hen : e.1 ≠ n := by
        intro hen
        rw [hen] at hne
        exact hne hln
      have he2 : e ∈ rest := by
        rcases List.mem_cons.1 he with rfl | he
        · exact absurd rfl hen
        · exact he
      obtain ⟨msg, w1, hr⟩ := ih _ (wellFormed_store w n s none hw)
        ⟨e, he2, by simpa [Finmap.lookup_insert_of_ne _ hen] using hne⟩
      exact ⟨msg, w1, by simp only [RegisterPartials, hreg]; exact hr⟩
    · refine ⟨alreadyRegistered n, w, ?_⟩
      simp only [RegisterPartials]
      rw [RegisterPartial_unlocked w n s hw.1, if_pos hi]

/-- In a well-formed state, for entries with distinct names, `RegisterPartials`
panics exactly when some entry's name is registered. -/
theorem RegisterPartials_panics_iff (l : List (String × String)) (w : World)
    (hw : w.WellFormed) (hnodup : (l.map Prod.fst).Nodup) :
    (∃ msg w1, RegisterPartials w l = .panicked msg w1) ↔
      ∃ e ∈ l, w.partials.lookup e.1 ≠ none := by
  constructor
  · rintro ⟨msg, w1, hp⟩
    by_contra hnone
    have hfresh : ∀ e ∈ l, w.partials.lookup e.1 = none := by
      intro e he
      by_contra hne
      exact hnone ⟨e, he, hne⟩
    obtain ⟨w2, hr, -⟩ := RegisterPartials_fresh l w hw.1 hnodup hfresh
    rw [hr] at hp
    cases hp
  · exact RegisterPartials_panics_of_registered l w hw

/-- Counterexample to C16 as stated: in the world where `"x"` is registered,
the entries `"x"` and `"y"` visited in the two orders. Both calls panic; after
the order `"x"`, `"y"` the name `"y"` is not registered, after the order `"y"`,
`"x"` it is. -/
theorem registerMany_order_counterexample :
    ([("x", "c"), ("y", "b")] : List (String × String)).Perm [("y", "b"), ("x", "c")] ∧
    RegisterPartials worldX [("x", "c"), ("y", "b")] =
      .panicked ("Partial already registered: " ++ "x") worldX ∧
    RegisterPartials worldX [("y", "b"), ("x", "c")] =
      .panicked ("Partial already registered: " ++ "x") worldXY ∧
    worldX.entry "y" = none ∧
    worldXY.entry "y" = some (some { Name := "y", Source := "b", Tpl := none }) :=
  ⟨List.Perm.swap _ _ _, rfl, rfl, by decide, by decide⟩

/-- C16, amended. In a well-formed state, for two orders `l1`, `l2` of entries
with distinct names: `RegisterPartials` panics in the one order exactly when it
panics in the other, namely when some entry's name is registered; when no
entry's name is registered it returns in both orders and every name holds the
same `Partial` afterwards; when it panics, the world it leaves is the one
reached by registering the entries visited before the panicking one, which
depends on the order. -/
theorem registerMany_order (w : World) (l1 l2 : List (String × String))
    (hw : w.WellFormed) (hperm : l1.Perm l2) (hnodup : (l1.map Prod.fst).Nodup) :
    ((∃ msg w1, RegisterPartials w l1 = .panicked msg w1) ↔
      (∃ msg w2, RegisterPartials w l2 = .panicked msg w2)) ∧
    ((∃ msg w1, RegisterPartials w l1 = .panicked msg w1) ↔
      ∃ e ∈ l1, w.partials.lookup e.1 ≠ none) ∧
    ((∀ e ∈ l1, w.partials.lookup e.1 = none) →
      ∃ w1 w2, RegisterPartials w l1 = .ret () w1 ∧ RegisterPartials w l2 = .ret () w2 ∧
        ∀ k, w1.entry k = w2.entry k) ∧
    (∀ msg w1, RegisterPartials w l1 = .panicked msg w1 →
      ∃ pre name src post, l1 = pre ++ (name, src) :: post ∧
        msg = "Partial already registered: " ++ name ∧
        RegisterPartials w pre = .ret () w1) := by
  have hnodup2 : (l2.map Prod.fst).Nodup := (hperm.map Prod.fst).nodup_iff.1 hnodup
  refine ⟨?_, RegisterPartials_panics_iff l1 w hw hnodup, ?_, ?_⟩
  · rw [RegisterPartials_panics_iff l1 w hw hnodup, RegisterPartials_panics_iff l2 w hw hnodup2]
    constructor
    · rintro ⟨e, he, hne⟩
      exact ⟨e, hperm.mem_iff.1 he, hne⟩
    · rintro ⟨e, he, hne⟩
      exact ⟨e, hperm.mem_iff.2 he, hne⟩
  · intro hfresh
    obtain ⟨w1, w2, hr1, hr2, hentry, -⟩ :=
      RegisterPartials_perm_fresh l1 l2 w hw hperm hnodup hfresh
    exact ⟨w1, w2, hr1, hr2, hentry⟩
  · intro msg w1 hp
    obtain ⟨-, ⟨pre, name, src, post, hsplit, hmsg, hpre, -, -⟩, -, -⟩ :=
      RegisterPartials_panicked l1 w w1 msg hp
    exact ⟨pre, name, src, post, hsplit, hmsg, hpre⟩

/-- Witness of the amended C16: the entries `"x"` and `"y"` in the two orders,
in the world where `"x"` is registered. -/
theorem registerMany_order_witness :
    worldX.WellFormed ∧
    ([("x", "c"), ("y", "b")] : List (String × String)).Perm [("y", "b"), ("x", "c")] ∧
    (([("x", "c"), ("y", "b")] : List (String × String)).map Prod.fst).Nodup ∧
    ((∃ msg w1, RegisterPartials worldX [("x", "c"), ("y", "b")] = .panicked msg w1) ↔
      (∃ msg w2, RegisterPartials worldX [("y", "b"), ("x", "c")] = .panicked msg w2)) ∧
    ((∃ msg w1, RegisterPartials worldX [("x", "c"), ("y", "b")] = .panicked msg w1) ↔
      ∃ e ∈ ([("x", "c"), ("y", "b")] : List (String × String)),
        worldX.partials.lookup e.1 ≠ none) ∧
    ((∀ e ∈ ([("x", "c"), ("y", "b")] : List (String × String)),
        worldX.partials.lookup e.1 = none) →
      ∃ w1 w2, RegisterPartials worldX [("x", "c"), ("y", "b")] = .ret () w1 ∧
        RegisterPartials worldX [("y", "b"), ("x", "c")] = .ret () w2 ∧
        ∀ k, w1.entry k = w2.entry k) ∧
    (∀ msg w1, RegisterPartials worldX [("x", "c"), ("y", "b")] = .panicked msg w1 →
      ∃ pre name src post,
        ([("x", "c"), ("y", "b")] : List (String × String)) = pre ++ (name, src) :: post ∧
        msg = "Partial already registered: " ++ name ∧
        RegisterPartials worldX pre = .ret () w1) :=
  ⟨wellFormed_worldX, List.Perm.swap _ _ _, by decide,
    registerMany_order worldX [("x", "c"), ("y", "b")] [("y", "b"), ("x", "c")]
      wellFormed_worldX (List.Perm.swap _ _ _) (by decide)⟩

/-! ## Partial instances -/

theorem RLock_of_writer (w : World) (h : w.partialsMutex.writer ≠ false) : RLock w = none := by
  simp only [RLock]
  rw [if_neg h]

/-- The registry operations allocate and never write an allocated `Partial`. -/
theorem registry_call_heap (w w1 : World) (b : Addr) (q : Partial) (hb : w.heap[b]? = some q) :
    (∀ name source, (RegisterPartial w name source).after = some w1 → w1.heap[b]? = some q) ∧
    (∀ name tpl, (RegisterPartialTemplate w name tpl).after = some w1 →
      w1.heap[b]? = some q) ∧
    (∀ name, (RemovePartial w name).after = some w1 → w1.heap[b]? = some q) ∧
    ((RemoveAllPartials w).after = some w1 → w1.heap[b]? = some q) ∧
    (∀ name, (findPartial w name).after = some w1 → w1.heap[b]? = some q) := by
  refine ⟨?_, ?_, ?_, ?_, ?_⟩
  · intro name source h
    by_cases hm : w.partialsMutex = RWMutex.zero
    · rw [RegisterPartial_unlocked w name source hm] at h
      split at h
      · simp only [Result.after, Option.some.injEq] at h
        subst h
        exact hb
      · simp only [Result.after, Option.some.injEq] at h
        subst h
        exact getElem?_append_of_some w.heap _ b q hb
    · simp [RegisterPartial, Lock_of_held w hm, Result.after] at h
  · intro name tpl h
    by_cases hm : w.partialsMutex = RWMutex.zero
    · rw [RegisterPartialTemplate_unlocked w name tpl hm] at h
      split at h
      · simp only [Result.after, Option.some.injEq] at h
        subst h
        exact hb
      · simp only [Result.after, Option.some.injEq] at h
        subst h
        exact getElem?_append_of_some w.heap _ b q hb
    · simp [RegisterPartialTemplate, Lock_of_held w hm, Result.after] at h
  · intro name h
    by_cases hm : w.partialsMutex = RWMutex.zero
    · rw [RemovePartial_unlocked w name hm] at h
      simp only [Result.after, Option.some.injEq] at h
      subst h
      exact hb
    · simp [RemovePartial, Lock_of_held w hm, Result.after] at h
  · intro h
    by_cases hm : w.partialsMutex = RWMutex.zero
    · rw [RemoveAllPartials_unlocked w hm] at h
      simp only [Result.after, Option.some.injEq] at h
      subst h
      exact hb
    · simp [RemoveAllPartials, Lock_of_held w hm, Result.after] at h
  · intro name h
    by_cases hm : w.partialsMutex.writer = false
    · rw [findPartial_no_writer w name hm] at h
      split at h
      · simp only [Result.after, Option.some.injEq] at h
        subst h
        exact hb
      · simp only [Result.after, Option.some.injEq] at h
        subst h
        exact hb
    · simp [findPartial, RLock_of_writer w hm, Result.after] at h

theorem RegisterPartials_heap (entries : List (String × String)) (w w1 : World) (b : Addr)
    (q : Partial) (hb : w.heap[b]? = some q)
    (h : (RegisterPartials w entries).after = some w1) : w1.heap[b]? = some q := by
  induction entries generalizing w with
  | nil =>
    simp only [RegisterPartials, Result.after, Option.some.injEq] at h
    subst h
    exact hb
  | cons e rest ih =>
    obtain ⟨n, s⟩ := e
    simp only [RegisterPartials] at h
    cases hr : RegisterPartial w n s with
    | blocked => rw [hr] at h; simp [Result.after] at h
    | panicked m w2 =>
      rw [hr] at h
      exact (registry_call_heap w w1 b q hb).1 n s (by rw [hr]; exact h)
    | ret u w2 =>
      rw [hr] at h
      exact ih w2 ((registry_call_heap w w2 b q hb).1 n s (by rw [hr]; rfl)) h

/-- No call writes a `Partial` whose `Tpl` is set. -/
theorem Call.run_keeps_compiled (Parse : String → TemplatePtr × GoError) (c : Call)
    (w w1 : World) (a : Addr) (obj : Partial) (ha : w.heap[a]? = some obj)
    (hs : obj.Tpl ≠ none) (h : c.run Parse w = some w1) : w1.heap[a]? = some obj := by
  cases c with
  | RegisterPartial name source => exact (registry_call_heap w w1 a obj ha).1 name source h
  | RegisterPartials entries => exact RegisterPartials_heap entries w w1 a obj ha h
  | RegisterPartialTemplate name tpl =>
    exact (registry_call_heap w w1 a obj ha).2.1 name tpl h
  | RemovePartial name => exact (registry_call_heap w w1 a obj ha).2.2.1 name h
  | RemoveAllPartials => exact (registry_call_heap w w1 a obj ha).2.2.2.1 h
  | findPartial name => exact (registry_call_heap w w1 a obj ha).2.2.2.2 name h
  | template p =>
    change (Raymond.template Parse w p).after = some w1 at h
    cases p with
    | none =>
      simp only [Raymond.template, Result.after, Option.some.injEq] at h
      subst h
      exact ha
    | some b =>
      cases hb : w.heap[b]? with
      | none =>
        simp only [Raymond.template, hb, Result.after, Option.some.injEq] at h
        subst h
        exact ha
      | some o =>
        rw [template_of_obj Parse w b o hb] at h
        by_cases hab : b = a
        · subst hab
          rw [ha] at hb
          injection hb with hb
          subst hb
          rw [if_neg hs] at h
          simp only [Result.after, Option.some.injEq] at h
          subst h
          exact ha
        · split at h
          · split at h <;>
            · simp only [Result.after, Option.some.injEq] at h
              subst h
              simpa [List.getElem?_set_ne hab] using ha
          · simp only [Result.after, Option.some.injEq] at h
            subst h
            exact ha

/-- C17. A `Partial` whose `Tpl` is set is never written again: after any
sequence of calls (`template` on it or on any other pointer, `RegisterPartial`,
`RegisterPartials`, `RegisterPartialTemplate`, `RemovePartial`,
`RemoveAllPartials`, `findPartial`, with any arguments, returning or panicking)
the object at its address has the same `Name`, `Source` and `Tpl`, and
`template()` on it returns that `Tpl` with a `nil` error and changes nothing. -/
theorem compiled_never_changes (Parse : String → TemplatePtr × GoError) (cs : List Call)
    (w w1 : World) (a : Addr) (obj : Partial) (ha : w.heap[a]? = some obj)
    (hs : obj.Tpl ≠ none) (h : runCalls Parse w cs = some w1) :
    w1.heap[a]? = some obj ∧ template Parse w1 (some a) = .ret (obj.Tpl, none) w1 := by
  have hkeep : w1.heap[a]? = some obj := by
    induction cs generalizing w with
    | nil =>
      simp only [runCalls, Option.some.injEq] at h
      subst h
      exact ha
    | cons c cs ih =>
      simp only [runCalls] at h
      cases hc : c.run Parse w with
      | none => rw [hc] at h; cases h
      | some w2 =>
        rw [hc] at h
        exact ih w2 (Call.run_keeps_compiled Parse c w w2 a obj ha hs hc) h
  refine ⟨hkeep, ?_⟩
  rw [template_of_obj Parse w1 a obj hkeep, if_neg hs]

/-- Witness of C17: the `Partial` stored by `RegisterPartialTemplate("x", tpl)`,
followed through five calls. -/
theorem compiled_never_changes_witness :
    worldTpl.heap[0]? = some { Name := "x", Source := "", Tpl := some 5 } ∧
    (some 5 : TemplatePtr) ≠ none ∧
    runCalls parseSeven worldTpl
      [Call.template (some 0), Call.RegisterPartial "y" "b", Call.RemovePartial "x",
        Call.RemoveAllPartials, Call.findPartial "x"] = some worldTplLater ∧
    worldTplLater.heap[0]? = some { Name := "x", Source := "", Tpl := some 5 } ∧
    template parseSeven worldTplLater (some 0) = .ret (some 5, none) worldTplLater :=
  ⟨rfl, by decide, rfl,
    compiled_never_changes parseSeven
      [Call.template (some 0), Call.RegisterPartial "y" "b", Call.RemovePartial "x",
        Call.RemoveAllPartials, Call.findPartial "x"]
      worldTpl worldTplLater 0 { Name := "x", Source := "", Tpl := some 5 } rfl (by decide) rfl⟩

/-- C18. Re-registration creates a new `Partial`. After a returning
`RegisterPartial(name, s1)`, optionally a returning `template()` on the
`Partial` that `findPartial(name)` returns, and then a returning
`RemovePartial(name)` or `RemoveAllPartials()`: `RegisterPartial(name, s2)`
returns, and `findPartial(name)` returns a `Partial` at another address with
`Source = s2` and `Tpl = nil`, while the `Partial` obtained before is still at
its address with `Source = s1` and the `Tpl` it had before the removal (`nil`
without `template()`, the compiled template after a `template()` that returned
one). -/
theorem reregister_creates_new (Parse : String → TemplatePtr × GoError)
    (w w1 w2 w3 : World) (name s1 s2 : String)
    (h1 : RegisterPartial w name s1 = .ret () w1)
    (h2 : w2 = w1 ∨ ∃ p r, findPartial w1 name = .ret p w1 ∧ template Parse w1 p = .ret r w2)
    (h3 : RemovePartial w2 name = .ret () w3 ∨ RemoveAllPartials w2 = .ret () w3) :
    ∃ a b w4 old, findPartial w1 name = .ret (some a) w1 ∧
      w2.heap[a]? = some old ∧ old.Name = name ∧ old.Source = s1 ∧
      (w2 = w1 → old.Tpl = none) ∧
      (∀ t, template Parse w1 (some a) = .ret (some t, none) w2 → old.Tpl = some t) ∧
      RegisterPartial w3 name s2 = .ret () w4 ∧
      findPartial w4 name = .ret (some b) w4 ∧ b ≠ a ∧
      w4.heap[b]? = some { Name := name, Source := s2, Tpl := none } ∧
      w4.heap[a]? = some old := by
  obtain ⟨hm, -, hw1⟩ := RegisterPartial_ret w w1 name s1 h1
  have hm1 : w1.partialsMutex = RWMutex.zero := by rw [hw1]; exact hm
  have hl1 : w1.partials.lookup name = some (some w.heap.length) := by rw [hw1]; simp
  have hobj : w1.heap[w.heap.length]? = some (⟨name, s1, none⟩ : Partial) := by
    rw [hw1]; simp
  have hlen : w.heap.length < w1.heap.length := by rw [hw1]; simp
  have hfind : findPartial w1 name = .ret (some w.heap.length) w1 :=
    findPartial_of_lookup w1 name _ (writer_of_zero w1 hm1) hl1
  have htpl := template_of_obj Parse w1 w.heap.length ⟨name, s1, none⟩ hobj
  simp only [if_true] at htpl
  -- the state before the removal
  have hmid : ∃ old, w2.partialsMutex = RWMutex.zero ∧ w2.heap[w.heap.length]? = some old ∧
      old.Name = name ∧ old.Source = s1 ∧ w.heap.length < w2.heap.length ∧
      (w2 = w1 → old.Tpl = none) ∧
      (∀ t, template Parse w1 (some w.heap.length) = .ret (some t, none) w2 →
        old.Tpl = some t) := by
    rcases h2 with rfl | ⟨p, r, hp, ht⟩
    · refine ⟨_, hm1, hobj, rfl, rfl, hlen, fun _ => rfl, ?_⟩
      intro t ht
      rw [htpl] at ht
      split at ht
      · injection ht with hv _
        cases hv
      · injection ht with _ hw
        have := congrArg (fun v => v.events.length) hw
        simp at this
    · rw [hfind] at hp
      injection hp with hp _
      subst hp
      have key : w2 = { w1 with
          events := w1.events ++ [Event.parse s1]
          heap := w1.heap.set w.heap.length ⟨name, s1, (Parse s1).1⟩ } := by
        rw [htpl] at ht
        split at ht <;>
        · injection ht with _ hw
          exact hw.symm
      have hset : w2.heap[w.heap.length]? = some (⟨name, s1, (Parse s1).1⟩ : Partial) := by
        rw [key]
        exact List.getElem?_set_self hlen
      refine ⟨_, by rw [key]; exact hm1, hset, rfl, rfl, by rw [key]; simpa using hlen, ?_, ?_⟩
      · intro heq
        have := congrArg (fun v => v.events.length) (key.symm.trans heq)
        simp at this
      · intro t ht2
        rw [htpl] at ht2
        split at ht2
        · injection ht2 with hv _
          cases hv
        · injection ht2 with hv _
          simp only [Prod.mk.injEq, and_true] at hv
          exact hv
  obtain ⟨old, hm2, hold, hname, hsrc, hlt, hnone, hsome⟩ := hmid
  -- the state after the removal
  have hrem : w3.partialsMutex = RWMutex.zero ∧ w3.partials.lookup name = none ∧
      w3.heap = w2.heap := by
    rcases h3 with h3 | h3
    · rw [RemovePartial_unlocked w2 name hm2] at h3
      injection h3 with _ h3
      subst h3
      exact ⟨hm2, Finmap.lookup_erase name w2.partials, rfl⟩
    · rw [RemoveAllPartials_unlocked w2 hm2] at h3
      injection h3 with _ h3
      subst h3
      exact ⟨hm2, Finmap.lookup_empty name, rfl⟩
  obtain ⟨hm3, hl3, hh3⟩ := hrem
  refine ⟨w.heap.length, w3.heap.length,
    { w3 with
      partials := w3.partials.insert name (some w3.heap.length)
      heap := w3.heap ++ [{ Name := name, Source := s2, Tpl := none }] },
    old, hfind, hold, hname, hsrc, hnone, hsome, ?_, ?_, ?_, ?_, ?_⟩
  · rw [RegisterPartial_unlocked w3 name s2 hm3,
      if_neg (by simp [index_of_lookup_none w3 name hl3])]
  · exact findPartial_of_lookup _ name _ (writer_of_zero w3 hm3) (by simp)
  · rw [hh3]
    exact Nat.ne_of_gt hlt
  · simp
  · rw [hh3]
    exact getElem?_append_of_some w2.heap _ _ old hold

/-- Witness of C18: `"x"` registered with source `"a"`, compiled, removed and
registered again with source `"b"`. -/
theorem reregister_creates_new_witness :
    RegisterPartial init "x" "a" = .ret () worldX ∧
    (∃ p r, findPartial worldX "x" = .ret p worldX ∧
      template parseSeven worldX p = .ret r worldXCompiled) ∧
    RemovePartial worldXCompiled "x" = .ret () worldXRemoved ∧
    ∃ a b w4 old, findPartial worldX "x" = .ret (some a) worldX ∧
      worldXCompiled.heap[a]? = some old ∧ old.Name = "x" ∧ old.Source = "a" ∧
      (worldXCompiled = worldX → old.Tpl = none) ∧
      (∀ t, template parseSeven worldX (some a) = .ret (some t, none) worldXCompiled →
        old.Tpl = some t) ∧
      RegisterPartial worldXRemoved "x" "b" = .ret () w4 ∧
      findPartial w4 "x" = .ret (some b) w4 ∧ b ≠ a ∧
      w4.heap[b]? = some { Name := "x", Source := "b", Tpl := none } ∧
      w4.heap[a]? = some old :=
  ⟨rfl, ⟨some 0, (some 7, none), rfl, rfl⟩, rfl,
    reregister_creates_new parseSeven init worldX worldXCompiled worldXRemoved "x" "a" "b" rfl
      (Or.inr ⟨some 0, (some 7, none), rfl, rfl⟩) (Or.inl rfl)⟩

/-! ## The invariant of the map -/

/-- C19. In every state reached from the initial state, with any resolver, by
any sequence of calls (returning or panicking): nobody holds the mutex, and
every key `k` of the map holds a pointer that is not `nil`, to an allocated
`Partial` whose `Name` is `k`. Hence the test of registration
(`partials[name] != nil`) and the test of lookup (`name` is a key) agree on
every name, and `RegisterPartial(name, source)` panics with the duplicate-name
error exactly when `findPartial(name)` returns a stored entry. -/
theorem registry_wellFormed (Parse : String → TemplatePtr × GoError)
    (r : String → PartialPtr) (cs : List Call) (w : World)
    (h : runCalls Parse { init with ResolvePartial := r } cs = some w) :
    w.partialsMutex = RWMutex.zero ∧
    (∀ k p, w.partials.lookup k = some p →
      ∃ a obj, p = some a ∧ w.heap[a]? = some obj ∧ obj.Name = k) ∧
    ∀ name,
      (w.index name ≠ none ↔ ∃ p, w.partials.lookup name = some p) ∧
      ∀ source,
        RegisterPartial w name source =
            .panicked ("Partial already registered: " ++ name) w ↔
          ∃ p, w.partials.lookup name = some p ∧ findPartial w name = .ret p w := by
  have hw0 : World.WellFormed { init with ResolvePartial := r } :=
    ⟨rfl, fun k p hk => by simp [init] at hk⟩
  obtain ⟨hw, -⟩ := runCalls_after Parse cs _ w h hw0
  have hidx : ∀ name, w.index name ≠ none ↔ ∃ p, w.partials.lookup name = some p := by
    intro name
    cases hl : w.partials.lookup name with
    | none => simp [World.index, hl]
    | some p =>
      obtain ⟨a, obj, rfl, -, -⟩ := hw.2 name p hl
      simp [World.index, hl]
  refine ⟨hw.1, hw.2, fun name => ⟨hidx name, fun source => ?_⟩⟩
  rw [RegisterPartial_unlocked w name source hw.1]
  constructor
  · intro hp
    by_cases hi : w.index name ≠ none
    · obtain ⟨p, hl⟩ := (hidx name).1 hi
      exact ⟨p, hl, findPartial_of_lookup w name p (writer_of_zero w hw.1) hl⟩
    · rw [if_neg hi] at hp
      cases hp
  · rintro ⟨p, hl, -⟩
    rw [if_pos ((hidx name).2 ⟨p, hl⟩)]
    rfl

/-- Witness of C19: the state after `RegisterPartial("x", "a")`. -/
theorem registry_wellFormed_witness :
    runCalls parseSeven { init with ResolvePartial := defaultResolvePartial }
      [Call.RegisterPartial "x" "a"] = some worldX ∧
    worldX.partialsMutex = RWMutex.zero ∧
    (∀ k p, worldX.partials.lookup k = some p →
      ∃ a obj, p = some a ∧ worldX.heap[a]? = some obj ∧ obj.Name = k) ∧
    ∀ name,
      (worldX.index name ≠ none ↔ ∃ p, worldX.partials.lookup name = some p) ∧
      ∀ source,
        RegisterPartial worldX name source =
            .panicked ("Partial already registered: " ++ name) worldX ↔
          ∃ p, worldX.partials.lookup name = some p ∧ findPartial worldX name = .ret p worldX :=
  ⟨rfl, registry_wellFormed parseSeven defaultResolvePartial [Call.RegisterPartial "x" "a"]
    worldX rfl⟩

end Raymond
